import Mathlib

/-
Verification development for the Beacon repository.

Rust code is shallowly embedded: hash maps become association lists,
`u64`/`u32`/`usize` become `Nat`, `i64`/`i32` become `Int`, and `f64`
weights become `ℚ` (exact arithmetic standing in for floating point).
Stateful methods become functions returning the updated value.
-/

namespace Beacon

/-- Lookup in an association list, mirroring `HashMap::get`. -/
def alookup {κ β : Type} [DecidableEq κ] (k : κ) : List (κ × β) → Option β
  | [] => none
  | (k', v) :: rest => if k' = k then some v else alookup k rest

/-- Remove a key, mirroring `HashMap::remove`. -/
def aremove {κ β : Type} [DecidableEq κ] (k : κ) (l : List (κ × β)) : List (κ × β) :=
  l.filter (fun p => decide (p.1 ≠ k))

/-- Insert a key, mirroring `HashMap::insert` (replaces any previous binding). -/
def ainsert {κ β : Type} [DecidableEq κ] (k : κ) (v : β) (l : List (κ × β)) : List (κ × β) :=
  (k, v) :: aremove k l

-- ── fresnel-fir-model/src/state.rs ───────────────────────────────────

/-- Runtime values in the model (`state.rs::Value`). -/
inductive Value : Type where
  | Bool : Bool → Value
  | Int : Int → Value
  | Str : String → Value
deriving DecidableEq, Repr

/-- Unique identifier for an entity instance (`state.rs::InstanceId`). -/
structure InstanceId where
  entity_type : String
  index : Nat
deriving DecidableEq, Repr

/-- A single entity instance with typed fields (`state.rs::EntityInstance`). -/
structure EntityInstance where
  entity_type : String
  id : InstanceId
  fields : List (String × Value)
deriving DecidableEq, Repr

namespace EntityInstance

def new (entity_type : String) (id : InstanceId) : EntityInstance :=
  { entity_type := entity_type, id := id, fields := [] }

def get_field (inst : EntityInstance) (name : String) : Option Value :=
  alookup name inst.fields

def set_field (inst : EntityInstance) (name : String) (value : Value) : EntityInstance :=
  { inst with fields := ainsert name value inst.fields }

end EntityInstance

/-- A trace entry recording an executed action (`state.rs::TraceEntry`). -/
structure TraceEntry where
  action : String
  args : List (String × String)
  generation : Nat
deriving DecidableEq, Repr

/-- Snapshot token for rollback (`state.rs::Snapshot`). -/
structure Snapshot where
  instances : List (String × List EntityInstance)
  trace : List TraceEntry
  generation : Nat
  next_instance_id : Nat
deriving DecidableEq, Repr

/-- Copy-on-write model state (`state.rs::ModelState`); the `Arc` sharing is
pure optimization and invisible at this level. -/
structure ModelState where
  instances : List (String × List EntityInstance)
  trace : List TraceEntry
  generation : Nat
  next_instance_id : Nat
deriving DecidableEq, Repr

namespace ModelState

def new : ModelState :=
  { instances := [], trace := [], generation := 0, next_instance_id := 0 }

/-- Create a new entity instance, returning its id and the new state. -/
def create_instance (s : ModelState) (entity_type : String) : InstanceId × ModelState :=
  let id : InstanceId := { entity_type := entity_type, index := s.next_instance_id }
  let inst := EntityInstance.new entity_type id
  let prev := (alookup entity_type s.instances).getD []
  (id, { s with
          next_instance_id := s.next_instance_id + 1
          generation := s.generation + 1
          instances := ainsert entity_type (prev ++ [inst]) s.instances })

def get_instance (s : ModelState) (id : InstanceId) : Option EntityInstance :=
  (alookup id.entity_type s.instances).bind (fun l => l.find? (fun inst => inst.id = id))

/-- Replace the first instance matching `id`, applying `f` to it
(mirrors `iter_mut().find(...)` followed by in-place mutation). -/
def update_first (id : InstanceId) (f : EntityInstance → EntityInstance) :
    List EntityInstance → List EntityInstance
  | [] => []
  | inst :: rest =>
    if inst.id = id then f inst :: rest else inst :: update_first id f rest

/-- Set a field value on an entity instance (`ModelState::set_field`).
If the entity type or the instance is absent the state is returned unchanged. -/
def set_field (s : ModelState) (id : InstanceId) (field : String) (value : Value) : ModelState :=
  match alookup id.entity_type s.instances with
  | none => s
  | some insts =>
    if insts.any (fun inst => inst.id = id) then
      { s with
        instances := ainsert id.entity_type
          (update_first id (fun inst => inst.set_field field value) insts) s.instances
        generation := s.generation + 1 }
    else s

def all_instances (s : ModelState) (entity_type : String) : List EntityInstance :=
  (alookup entity_type s.instances).getD []

def snapshot (s : ModelState) : Snapshot :=
  { instances := s.instances
    trace := s.trace
    generation := s.generation
    next_instance_id := s.next_instance_id }

def rollback (_s : ModelState) (snap : Snapshot) : ModelState :=
  { instances := snap.instances
    trace := snap.trace
    generation := snap.generation
    next_instance_id := snap.next_instance_id }

def record_action (s : ModelState) (action : String) (args : List (String × String)) :
    ModelState :=
  { s with trace := s.trace ++ [{ action := action, args := args, generation := s.generation }] }

end ModelState

/-- A mutation performed on a model state between a snapshot and a rollback,
as enumerated by claim C5. -/
inductive ModelOp : Type where
  | create : String → ModelOp
  | setf : InstanceId → String → Value → ModelOp
  | record : String → List (String × String) → ModelOp
deriving Repr

def applyOp (s : ModelState) : ModelOp → ModelState
  | .create t => (s.create_instance t).2
  | .setf id f v => s.set_field id f v
  | .record a args => s.record_action a args

def applyOps (s : ModelState) : List ModelOp → ModelState
  | [] => s
  | op :: rest => applyOps (applyOp s op) rest

-- ── beacon-explore/src/adapt: directives and the timeout tracker ─────

/-- Proof that a branch is provably unreachable (`directive.rs::UnreachabilityProof`). -/
inductive UnreachabilityProof : Type where
  | StaticUnreachable : String → UnreachabilityProof
  | SolverUnsat : String → UnreachabilityProof
deriving DecidableEq, Repr

/-- Adaptation directives (`directive.rs::Directive`). -/
inductive Directive : Type where
  | AdjustWeight : (branch_id : String) → (model_state_hash : Nat) → (multiplier : ℚ) → Directive
  | Force : (action : String) → (budget : Nat) → Directive
  | Skip : (branch_id : String) → (model_state_hash : Nat) → (remaining : Nat) → Directive
  | LoopLimit : (loop_node_id : Nat) → (new_min : Nat) → (new_max : Nat) → Directive
  | PermanentZero : (branch_id : String) → (proof : UnreachabilityProof) → Directive
deriving DecidableEq, Repr

/-- State of a timeout-tracked action (`timeout.rs::TimeoutState`). -/
inductive TimeoutState : Type where
  | RetryScheduled : (reduced_fuel : Nat) → TimeoutState
  | PermanentSkip : (skip_remaining : Nat) → TimeoutState
deriving DecidableEq, Repr

/-- Tracks timeout two-step state per action (`timeout.rs::TimeoutTracker`). -/
structure TimeoutTracker where
  states : List (String × TimeoutState)
  default_skip_budget : Nat
deriving DecidableEq, Repr

namespace TimeoutTracker

def new : TimeoutTracker :=
  { states := [], default_skip_budget := 50 }

/-- Handle a timeout event for an action (`TimeoutTracker::handle_timeout`).
Returns the optional directive and the updated tracker. -/
def handle_timeout (t : TimeoutTracker) (action : String) (fuel_consumed : Option Nat) :
    Option Directive × TimeoutTracker :=
  match alookup action t.states with
  | none =>
    let reduced := (fuel_consumed.map (fun f => f / 2)).getD 500000
    (none, { t with states := ainsert action (.RetryScheduled reduced) t.states })
  | some (.RetryScheduled _) =>
    (some (.Skip action 0 t.default_skip_budget),
     { t with states := ainsert action (.PermanentSkip t.default_skip_budget) t.states })
  | some (.PermanentSkip skip_remaining) =>
    if skip_remaining > 0 then
      (none, { t with states := ainsert action (.PermanentSkip (skip_remaining - 1)) t.states })
    else
      (none, { t with states := aremove action t.states })

/-- Report that a retry succeeded (`TimeoutTracker::report_retry_success`). -/
def report_retry_success (t : TimeoutTracker) (action : String) : TimeoutTracker :=
  { t with states := aremove action t.states }

/-- Check whether an action is in retry state (`TimeoutTracker::needs_retry`). -/
def needs_retry (t : TimeoutTracker) (action : String) : Option Nat :=
  match alookup action t.states with
  | some (.RetryScheduled reduced_fuel) => some reduced_fuel
  | _ => none

/-- Check whether an action is permanently skipped (`TimeoutTracker::is_skipped`). -/
def is_skipped (t : TimeoutTracker) (action : String) : Bool :=
  match alookup action t.states with
  | some (.PermanentSkip _) => true
  | _ => false

end TimeoutTracker

-- ── beacon-explore/src/traversal/weight_table.rs ─────────────────────

/-- Key for the weight table (`weight_table.rs::WeightKey`). -/
structure WeightKey where
  branch_id : String
  model_state_hash : Nat
deriving DecidableEq, Repr

/-- State-conditioned weight table (`weight_table.rs::WeightTable`).
Weights are `f64` in the source, embedded as `ℚ`. -/
structure WeightTable where
  weights : List (WeightKey × ℚ)
  defaults : List (String × ℚ)
deriving DecidableEq, Repr

namespace WeightTable

def new : WeightTable := { weights := [], defaults := [] }

def set_default (wt : WeightTable) (branch_id : String) (weight : ℚ) : WeightTable :=
  { wt with defaults := ainsert branch_id weight wt.defaults }

/-- `WeightTable::get`: the exact entry if present, else the default, else 1.0. -/
def get (wt : WeightTable) (branch_id : String) (model_state_hash : Nat) : ℚ :=
  match alookup { branch_id := branch_id, model_state_hash := model_state_hash } wt.weights with
  | some w => w
  | none => (alookup branch_id wt.defaults).getD 1

def set (wt : WeightTable) (branch_id : String) (model_state_hash : Nat) (weight : ℚ) :
    WeightTable :=
  { wt with weights :=
      ainsert { branch_id := branch_id, model_state_hash := model_state_hash } weight wt.weights }

/-- `WeightTable::adjust`: multiply the current weight by `multiplier`. -/
def adjust (wt : WeightTable) (branch_id : String) (model_state_hash : Nat) (multiplier : ℚ) :
    WeightTable :=
  wt.set branch_id model_state_hash (wt.get branch_id model_state_hash * multiplier)

/-- `WeightTable::decay_all`: multiply every state-conditioned entry by `factor`. -/
def decay_all (wt : WeightTable) (factor : ℚ) : WeightTable :=
  { wt with weights := wt.weights.map (fun p => (p.1, p.2 * factor)) }

/-- Modelled from the spec: `clamp_min` of the fresnel-fir-explore weight table,
whose source file is not present in the repository snapshot (only its caller
`apply_epoch_decay` and that caller's tests are). Per the spec, `clamp_min(w₀)`
raises positive weights below `w₀` to `w₀`, preserves exact zero (reserved for
provable unreachability), and afterwards every non-zero weight is ≥ `w₀`. -/
def clamp_min (wt : WeightTable) (w0 : ℚ) : WeightTable :=
  { wt with weights := wt.weights.map (fun p => (p.1, if p.2 = 0 then 0 else max p.2 w0)) }

end WeightTable

-- ── fresnel-fir-explore/src/adapt/decay.rs ───────────────────────────

/-- Configuration for per-epoch decay behavior (`decay.rs::DecayConfig`). -/
structure DecayConfig where
  global_decay : ℚ
  min_weight : ℚ
deriving DecidableEq, Repr

/-- Apply per-epoch decay to all state-conditioned weights (`decay.rs::apply_epoch_decay`). -/
def apply_epoch_decay (weight_table : WeightTable) (config : DecayConfig) : WeightTable :=
  (weight_table.decay_all config.global_decay).clamp_min config.min_weight

-- ── fresnel-fir-core/src/memory.rs ───────────────────────────────────

/-- A replay capsule (`memory.rs::ReplayCapsule`). -/
structure ReplayCapsule where
  ir_hash : String
  wasm_hash : String
  seed : Nat
  finding_description : String
  trigger_action : String
  trace_step : Nat
  model_generation : Nat
  input_vector : List (String × String)
deriving DecidableEq, Repr

/-- A hot region (`memory.rs::HotRegion`). -/
structure HotRegion where
  branch_id : String
  model_state_hash : Nat
  finding_count : Nat
  boost_factor : ℚ
deriving DecidableEq, Repr

/-- A learned weight entry (`memory.rs::LearnedWeight`). -/
structure LearnedWeight where
  branch_id : String
  model_state_hash : Nat
  weight : ℚ
deriving DecidableEq, Repr

/-- Cross-campaign memory for a specific IR hash (`memory.rs::CampaignMemory`). -/
structure CampaignMemory where
  ir_hash : String
  replay_capsules : List ReplayCapsule
  learned_weights : List LearnedWeight
  hot_regions : List HotRegion
  non_reproduction_counts : List (Nat × Nat)
  campaign_count : Nat
deriving DecidableEq, Repr

/-- Configuration for cross-campaign memory behavior (`memory.rs::MemoryConfig`). -/
structure MemoryConfig where
  cross_campaign_decay : ℚ
  aggressive_decay : ℚ
  invalidation_threshold : Nat
  hot_region_boost : ℚ
deriving DecidableEq, Repr

def MemoryConfig.default : MemoryConfig :=
  { cross_campaign_decay := 8 / 10
    aggressive_decay := 2 / 10
    invalidation_threshold := 3
    hot_region_boost := 2 }

namespace CampaignMemory

def new (ir_hash : String) : CampaignMemory :=
  { ir_hash := ir_hash
    replay_capsules := []
    learned_weights := []
    hot_regions := []
    non_reproduction_counts := []
    campaign_count := 0 }

/-- One pass of the invalidation loop body in `prepare_new_campaign`: the entry
`(idx, count)` of `non_reproduction_counts` applies aggressive decay to weights
whose branch id matches the trigger action of capsule `idx`. -/
def apply_invalidation (capsules : List ReplayCapsule) (config : MemoryConfig)
    (ws : List LearnedWeight) (entry : Nat × Nat) : List LearnedWeight :=
  if entry.2 ≥ config.invalidation_threshold then
    match capsules.get? entry.1 with
    | some capsule =>
      ws.map (fun w =>
        if w.branch_id = capsule.trigger_action then
          { w with weight := w.weight * config.aggressive_decay }
        else w)
    | none => ws
  else ws

/-- Prepare for a new campaign (`CampaignMemory::prepare_new_campaign`):
decay learned weights and hot-region boosts, apply invalidation for
non-reproducing capsules, increment the campaign count. -/
def prepare_new_campaign (m : CampaignMemory) (config : MemoryConfig) : CampaignMemory :=
  let decayed := m.learned_weights.map (fun w =>
    { w with weight := w.weight * config.cross_campaign_decay })
  { m with
    campaign_count := m.campaign_count + 1
    learned_weights :=
      m.non_reproduction_counts.foldl (apply_invalidation m.replay_capsules config) decayed
    hot_regions := m.hot_regions.map (fun r =>
      { r with boost_factor := r.boost_factor * config.cross_campaign_decay }) }

def record_reproduction (m : CampaignMemory) (capsule_index : Nat) : CampaignMemory :=
  { m with non_reproduction_counts := aremove capsule_index m.non_reproduction_counts }

def record_non_reproduction (m : CampaignMemory) (capsule_index : Nat) : CampaignMemory :=
  let current := (alookup capsule_index m.non_reproduction_counts).getD 0
  { m with non_reproduction_counts :=
      ainsert capsule_index (current + 1) m.non_reproduction_counts }

end CampaignMemory

/-- Iterate `prepare_new_campaign` K times. -/
def prepareK (m : CampaignMemory) (config : MemoryConfig) : Nat → CampaignMemory
  | 0 => m
  | k + 1 => prepareK (m.prepare_new_campaign config) config k

-- ── fresnel-fir-explore/src/solver/domain.rs ─────────────────────────

/-- Domain types from the IR (`types.rs::DomainType`). -/
inductive DomainType : Type where
  | Enum : (values : List String) → DomainType
  | Bool : DomainType
  | Int : (min : Int) → (max : Int) → DomainType
deriving DecidableEq, Repr

/-- A SAT literal: variable index and polarity (varisat `Lit`). -/
structure Lit where
  var : Nat
  positive : Bool
deriving DecidableEq, Repr

/-- How a single domain variable is encoded in SAT (`domain.rs::Encoding`). -/
inductive Encoding : Type where
  | Bool : (var : Nat) → Encoding
  | OneHot : (variants : List (String × Nat)) → Encoding
deriving DecidableEq, Repr

/-- An encoded domain (`domain.rs::EncodedDomain`). -/
structure EncodedDomain where
  name : String
  encoding : Encoding
deriving DecidableEq, Repr

/-- Errors during domain encoding (`domain.rs::EncodingError`). -/
inductive EncodingError : Type where
  | EmptyIntRange : (name : String) → (min : Int) → (max : Int) → EncodingError
  | IntRangeTooLarge : (name : String) → (size : Int) → EncodingError
  | EmptyEnum : (name : String) → EncodingError
deriving DecidableEq, Repr

def MAX_INT_RANGE : Int := 1024

/-- One-hot variables for a list of labels starting at `next_var`
(mirrors the `values.iter().map(...)` allocation loop). -/
def allocVariants (labels : List String) (next_var : Nat) : List (String × Nat) :=
  labels.enum.map (fun p => (p.2, next_var + p.1))

/-- Pairwise at-most-one clauses: `(!vi OR !vj)` for all `i < j`
(mirrors the nested index loops in `encode_domain`). -/
def pairwiseAtMostOne : List (String × Nat) → List (List Lit)
  | [] => []
  | v :: rest =>
    rest.map (fun u => [Lit.mk v.2 false, Lit.mk u.2 false]) ++ pairwiseAtMostOne rest

/-- Encode a single domain variable (`domain.rs::encode_domain`). Takes and
returns the `next_var` counter and the accumulated structural clauses. -/
def encode_domain (name : String) (domain : DomainType) (next_var : Nat)
    (clauses : List (List Lit)) :
    Except EncodingError (EncodedDomain × Nat × List (List Lit)) :=
  match domain with
  | .Bool =>
    Except.ok ({ name := name, encoding := .Bool next_var }, next_var + 1, clauses)
  | .Enum values =>
    if values.isEmpty then
      Except.error (.EmptyEnum name)
    else
      let variants := allocVariants values next_var
      let at_least_one := variants.map (fun v => Lit.mk v.2 true)
      let clauses := clauses ++ [at_least_one] ++ pairwiseAtMostOne variants
      Except.ok ({ name := name, encoding := .OneHot variants },
        next_var + values.length, clauses)
  | .Int min max =>
    if min > max then
      Except.error (.EmptyIntRange name min max)
    else
      let size := max - min + 1
      if size > MAX_INT_RANGE then
        Except.error (.IntRangeTooLarge name size)
      else
        let labels := (List.range size.toNat).map (fun i => toString (min + i))
        let variants := allocVariants labels next_var
        let at_least_one := variants.map (fun v => Lit.mk v.2 true)
        let clauses := clauses ++ [at_least_one] ++ pairwiseAtMostOne variants
        Except.ok ({ name := name, encoding := .OneHot variants },
          next_var + labels.length, clauses)

-- ── beacon-ir/src/expr.rs ────────────────────────────────────────────

/-- Literal values in predicate expressions (`expr.rs::Literal`). -/
inductive Literal : Type where
  | Bool : Bool → Literal
  | Int : Int → Literal
  | Str : String → Literal

/-- Operators (`expr.rs::OpKind`). -/
inductive OpKind : Type where
  | Eq | Neq | And | Or | Not | Implies | Lt | Lte | Gt | Gte
deriving DecidableEq, Repr

/-- Quantifier kinds (`expr.rs::QuantifierKind`). -/
inductive QuantifierKind : Type where
  | Forall | Exists
deriving DecidableEq, Repr

/-- Function classifications (`expr.rs::FnClassification`). -/
inductive FnClassification : Type where
  | Derived | Observer
deriving DecidableEq, Repr

/-- Predicate expression trees (`expr.rs::Expr`). -/
inductive Expr : Type where
  | Literal : Literal → Expr
  | Field : (entity : String) → (field : String) → Expr
  | Op : OpKind → List Expr → Expr
  | Quantifier : QuantifierKind → (var : String) → (domain : String) → (body : Expr) → Expr
  | FnCall : FnClassification → (name : String) → (args : List String) → Expr
  | Is : (entity : String) → (refinement : String) → (params : List (String × String)) → Expr

-- ── beacon-ir/src/types.rs ───────────────────────────────────────────

/-- Stands for `serde_json::Value`. Only integer numerals are representable
(`resolve_value` in effect.rs rejects every non-`i64` number anyway). -/
inductive Json : Type where
  | null : Json
  | bool : Bool → Json
  | num : Int → Json
  | str : String → Json
  | arr : List Json → Json
  | obj : List (String × Json) → Json

inductive FieldType : Type where
  | Str : (format : Option String) → FieldType
  | Bool : (default : Option Bool) → FieldType
  | Int : (min : Option Int) → (max : Option Int) → FieldType
  | Enum : (values : List String) → FieldType
  | Ref : (entity : String) → FieldType

structure FieldDef where
  field_type : FieldType

structure Entity where
  fields : List (String × FieldDef)

structure ParamDef where
  name : String
  param_type : String

structure Refinement where
  base : String
  params : List ParamDef
  predicate : Expr

structure FunctionDef where
  classification : FnClassification
  params : List ParamDef
  body : Option Expr
  binding : Option String
  returns : String

/-- Protocol grammar nodes and alt branches (`types.rs::ProtocolNode`,
`types.rs::AltBranch`). -/
inductive ProtocolNode : Type where
  | Seq : (children : List ProtocolNode) → ProtocolNode
  | Alt : (branches : List (String × Nat × Option Expr × ProtocolNode)) → ProtocolNode
  | Repeat : (min : Nat) → (max : Nat) → (body : ProtocolNode) → ProtocolNode
  | Call : (action : String) → ProtocolNode
  | Ref : (protocol : String) → ProtocolNode

/-- An alt branch is the tuple `(id, weight, guard, body)`; named accessors
mirror the fields of `types.rs::AltBranch`. -/
def AltBranch : Type := String × Nat × Option Expr × ProtocolNode

def AltBranch.id (b : AltBranch) : String := b.1

def AltBranch.weight (b : AltBranch) : Nat := b.2.1

def AltBranch.guard (b : AltBranch) : Option Expr := b.2.2.1

def AltBranch.body (b : AltBranch) : ProtocolNode := b.2.2.2

structure Protocol where
  root : ProtocolNode

structure CreateEffect where
  entity : String
  assign : String

structure EffectSet where
  target : List String
  value : Json

structure Effect where
  creates : Option CreateEffect
  sets : List EffectSet

inductive PropertyType : Type where
  | Invariant | Temporal
deriving DecidableEq, Repr

structure Property where
  property_type : PropertyType
  predicate : Option Expr
  rule : Option Json
  description : Option String

structure GeneratorStep where
  action : String
  with_args : Option Json

structure Generator where
  description : Option String
  sequence : List GeneratorStep
  postcondition : Option Expr

structure WeightConfig where
  scope : String
  initial : String
  decay : String

structure DirectiveConfig where
  directive_type : String
  description : Option String

structure AdaptationSignal where
  signal : String
  description : Option String

structure StrategyConfig where
  initial : String
  fallback : String

structure ConcurrencyConfig where
  mode : String
  threads : Nat

structure ExplorationConfig where
  weights : WeightConfig
  directives_allowed : List DirectiveConfig
  adaptation_signals : List AdaptationSignal
  strategy : StrategyConfig
  epoch_size : Nat
  coverage_floor_threshold : ℚ
  concurrency : ConcurrencyConfig

structure Domain where
  domain_type : DomainType

structure InputConstraint where
  name : String
  rule : Expr

inductive CoverageTarget : Type where
  | AllPairs : (over : List String) → CoverageTarget
  | EachTransition : (machine : String) → CoverageTarget
  | Boundary : (domain : String) → (values : List Json) → CoverageTarget

structure CoverageConfig where
  targets : List CoverageTarget
  seed : Nat
  reproducible : Bool

structure ActionBinding where
  function : String
  args : List String
  returns : Json
  mutates : Bool
  idempotent : Bool
  reads : List String
  writes : List String

structure EventHooks where
  mode : String
  observe : List String
  capture : List String

structure Bindings where
  runtime : String
  entry : String
  actions : List (String × ActionBinding)
  event_hooks : EventHooks

structure InputSpace where
  domains : List (String × Domain)
  constraints : List InputConstraint
  coverage : CoverageConfig

/- `InputSpace` is declared here, before `BeaconIR`, because Lean requires
definitions before use; the Rust source orders the sections differently. -/

/-- Top-level Beacon IR, all 9 sections (`types.rs::BeaconIR`). -/
structure BeaconIR where
  entities : List (String × Entity)
  refinements : List (String × Refinement)
  functions : List (String × FunctionDef)
  protocols : List (String × Protocol)
  effects : List (String × Effect)
  properties : List (String × Property)
  generators : List (String × Generator)
  exploration : ExplorationConfig
  inputs : InputSpace
  bindings : Bindings

-- ── beacon-compiler/src/validate.rs ──────────────────────────────────

/-- Validation errors (`validate.rs::ValidationError`). -/
inductive ValidationError : Type where
  | DanglingEntityRef : (refinement : String) → (entity : String) → ValidationError
  | MissingEffect : (action : String) → ValidationError
  | MissingBinding : (action : String) → ValidationError
  | DanglingProtocolRef : (from_proto : String) → (target : String) → ValidationError
  | AllZeroWeights : (location : String) → ValidationError
  | InvalidRepeatBounds : (location : String) → (min : Nat) → (max : Nat) → ValidationError

/-- Check that all refinement base types reference declared entities
(`validate.rs::validate_entity_refs`). -/
def validate_entity_refs (ir : BeaconIR) : List ValidationError :=
  ir.refinements.filterMap (fun p =>
    if (alookup p.2.base ir.entities).isNone then
      some (.DanglingEntityRef p.1 p.2.base)
    else none)

mutual

/-- Recursively collect all action names from Call nodes
(`validate.rs::collect_actions`). -/
def collect_actions : ProtocolNode → List String
  | .Call action => [action]
  | .Seq children => collect_actions_list children
  | .Alt branches => collect_actions_branches branches
  | .Repeat _ _ body => collect_actions body
  | .Ref _ => []

def collect_actions_list : List ProtocolNode → List String
  | [] => []
  | n :: rest => collect_actions n ++ collect_actions_list rest

def collect_actions_branches : List AltBranch → List String
  | [] => []
  | (_, _, _, body) :: rest => collect_actions body ++ collect_actions_branches rest

end

/-- Check that all actions referenced in protocols have matching effects and
bindings (`validate.rs::validate_protocol_actions`). The Rust accumulates the
actions in a `HashSet`; deduplicated first occurrences stand in for it. -/
def validate_protocol_actions (ir : BeaconIR) : List ValidationError :=
  let actions :=
    (ir.protocols.foldl (fun acc p => acc ++ collect_actions p.2.root) []).eraseDups
  actions.flatMap (fun action =>
    (if (alookup action ir.effects).isNone then [ValidationError.MissingEffect action] else [])
      ++ (if (alookup action ir.bindings.actions).isNone then
            [ValidationError.MissingBinding action] else []))

mutual

/-- Recursively check for dangling protocol refs (`validate.rs::collect_refs`). -/
def collect_refs (from_proto : String) (protocols : List (String × Protocol)) :
    ProtocolNode → List ValidationError
  | .Ref protocol =>
    if (alookup protocol protocols).isNone then
      [.DanglingProtocolRef from_proto protocol]
    else []
  | .Seq children => collect_refs_list from_proto protocols children
  | .Alt branches => collect_refs_branches from_proto protocols branches
  | .Repeat _ _ body => collect_refs from_proto protocols body
  | .Call _ => []

def collect_refs_list (from_proto : String) (protocols : List (String × Protocol)) :
    List ProtocolNode → List ValidationError
  | [] => []
  | n :: rest =>
    collect_refs from_proto protocols n ++ collect_refs_list from_proto protocols rest

def collect_refs_branches (from_proto : String) (protocols : List (String × Protocol)) :
    List AltBranch → List ValidationError
  | [] => []
  | (_, _, _, body) :: rest =>
    collect_refs from_proto protocols body ++ collect_refs_branches from_proto protocols rest

end

/-- Check that all protocol refs target existing protocols
(`validate.rs::validate_protocol_refs`). -/
def validate_protocol_refs (ir : BeaconIR) : List ValidationError :=
  ir.protocols.foldl (fun acc p => acc ++ collect_refs p.1 ir.protocols p.2.root) []

mutual

/-- Recursively check structural constraints (`validate.rs::check_structure`). -/
def check_structure (proto_name : String) : ProtocolNode → List ValidationError
  | .Alt branches =>
    (if ¬ branches.isEmpty ∧ branches.all (fun b => b.2.1 = 0) then
      [ValidationError.AllZeroWeights proto_name]
    else []) ++ check_structure_branches proto_name branches
  | .Repeat min max body =>
    (if min > max then [ValidationError.InvalidRepeatBounds proto_name min max] else [])
      ++ check_structure proto_name body
  | .Seq children => check_structure_list proto_name children
  | .Call _ => []
  | .Ref _ => []

def check_structure_list (proto_name : String) : List ProtocolNode → List ValidationError
  | [] => []
  | n :: rest => check_structure proto_name n ++ check_structure_list proto_name rest

def check_structure_branches (proto_name : String) : List AltBranch → List ValidationError
  | [] => []
  | (_, _, _, body) :: rest =>
    check_structure proto_name body ++ check_structure_branches proto_name rest

end

/-- Check structural constraints for all protocols
(`validate.rs::validate_protocol_structure`). -/
def validate_protocol_structure (ir : BeaconIR) : List ValidationError :=
  ir.protocols.foldl (fun acc p => acc ++ check_structure p.1 p.2.root) []

/-- Validate an IR (`validate.rs::validate_ir`); the Rust `Result<(), Vec<_>>`
is represented by its error list, `[]` standing for `Ok(())`. -/
def validate_ir (ir : BeaconIR) : List ValidationError :=
  validate_entity_refs ir ++ validate_protocol_actions ir
    ++ validate_protocol_refs ir ++ validate_protocol_structure ir

-- ── beacon-compiler/src/predicate.rs ─────────────────────────────────

structure FieldInfo where
  field_type : String

structure FunctionInfo where
  classification : String
  params : List String
  returns : String

/-- Type context built from the IR (`predicate.rs::TypeContext`). -/
structure TypeContext where
  entities : List (String × List (String × FieldInfo))
  refinements : List (String × String)
  functions : List (String × FunctionInfo)

namespace TypeContext

def from_ir (ir : BeaconIR) : TypeContext :=
  { entities := ir.entities.map (fun p =>
      (p.1, p.2.fields.map (fun f =>
        (f.1, { field_type :=
          match f.2.field_type with
          | .Str _ => "string"
          | .Bool _ => "bool"
          | .Int _ _ => "int"
          | .Enum _ => "enum"
          | .Ref _ => "ref" }))))
    refinements := ir.refinements.map (fun p => (p.1, p.2.base))
    functions := ir.functions.map (fun p =>
      (p.1, { classification :=
                match p.2.classification with
                | .Derived => "derived"
                | .Observer => "observer"
              params := p.2.params.map (fun q => q.param_type)
              returns := p.2.returns })) }

end TypeContext

/-- Compiled expressions (`predicate.rs::CompiledExpr`). -/
inductive CompiledExpr : Type where
  | Literal : Value → CompiledExpr
  | Field : (entity : String) → (field : String) → CompiledExpr
  | Op : OpKind → List CompiledExpr → CompiledExpr
  | Quantifier : QuantifierKind → (var : String) → (domain : String) →
      (body : CompiledExpr) → CompiledExpr
  | FnCall : FnClassification → (name : String) → (args : List String) → CompiledExpr
  | Is : (entity : String) → (refinement : String) →
      (params : List (String × String)) → CompiledExpr

/-- Predicate compilation errors (`predicate.rs::CompileError`). -/
inductive Predicate.CompileError : Type where
  | UnknownFunction : (name : String) → Predicate.CompileError

mutual

/-- Lower an expression (`predicate.rs::compile_expr`). -/
def compile_expr (e : Expr) (ctx : TypeContext) :
    Except Predicate.CompileError CompiledExpr :=
  match e with
  | .Literal lit =>
    .ok (.Literal (match lit with
      | .Bool b => .Bool b
      | .Int i => .Int i
      | .Str s => .Str s))
  | .Field entity field => .ok (.Field entity field)
  | .Op op args =>
    match compile_expr_list args ctx with
    | .error e => .error e
    | .ok cargs => .ok (.Op op cargs)
  | .Quantifier kind var domain body =>
    match compile_expr body ctx with
    | .error e => .error e
    | .ok cbody => .ok (.Quantifier kind var domain cbody)
  | .FnCall classification name args => .ok (.FnCall classification name args)
  | .Is entity refinement params => .ok (.Is entity refinement params)

def compile_expr_list (es : List Expr) (ctx : TypeContext) :
    Except Predicate.CompileError (List CompiledExpr) :=
  match es with
  | [] => .ok []
  | e :: rest =>
    match compile_expr e ctx with
    | .error err => .error err
    | .ok c =>
      match compile_expr_list rest ctx with
      | .error err => .error err
      | .ok cs => .ok (c :: cs)

end

-- ── fresnel-fir-compiler/src/graph.rs (shared NDA graph shape) ───────

/-- A branch alternative edge (`graph.rs::BranchEdge`). -/
structure BranchEdge where
  id : String
  weight : ℚ
  target : Nat
  guard : Option CompiledExpr

/-- NDA graph nodes (`graph.rs::GraphNode`). -/
inductive GraphNode : Type where
  | Terminal : (action : String) → (guard : Option CompiledExpr) → GraphNode
  | Branch : (alternatives : List BranchEdge) → GraphNode
  | LoopEntry : (body_start : Nat) → (min : Nat) → (max : Nat) → GraphNode
  | LoopExit : GraphNode
  | Start : GraphNode
  | End : GraphNode

/-- The NDA graph (`graph.rs::NdaGraph`). -/
structure NdaGraph where
  nodes : List GraphNode
  edges : List (Nat × Nat)
  entry : Nat
  exit : Nat

namespace NdaGraph

/-- `NdaGraph::add_node` — returns the fresh node id and the grown graph. -/
def add_node (g : NdaGraph) (node : GraphNode) : Nat × NdaGraph :=
  (g.nodes.length, { g with nodes := g.nodes ++ [node] })

def add_edge (g : NdaGraph) (from_id to_id : Nat) : NdaGraph :=
  { g with edges := g.edges ++ [(from_id, to_id)] }

/-- `NdaGraph::new` — a graph holding its Start (entry) and End (exit) nodes. -/
def new : NdaGraph :=
  { nodes := [.Start, .End], edges := [], entry := 0, exit := 1 }

end NdaGraph

-- ── beacon-compiler/src/protocol.rs ──────────────────────────────────

/-- Protocol compilation errors (`protocol.rs::ProtocolCompileError`). -/
inductive ProtocolCompileError : Type where
  | UnknownProtocolRef : (name : String) → ProtocolCompileError
  | GuardCompile : Predicate.CompileError → ProtocolCompileError

mutual

/-- Compile a protocol node into graph nodes (`protocol.rs::compile_node`),
returning the `(entry, exit)` pair of the subgraph. Protocol references make
this recursion non-structural in the source (recursive references are not
rejected, per the spec's own §9 note), so the embedding carries fuel:
`none` models non-termination, never a returned value. -/
def compile_node (fuel : Nat) (node : ProtocolNode) (ctx : TypeContext)
    (all_protocols : List (String × Protocol)) (graph : NdaGraph) :
    Option (Except ProtocolCompileError ((Nat × Nat) × NdaGraph)) :=
  match fuel with
  | 0 => none
  | fuel + 1 =>
    match node with
    | .Call action =>
      let idg := graph.add_node (.Terminal action none)
      some (.ok ((idg.1, idg.1), idg.2))
    | .Seq children =>
      if children.isEmpty then
        let idg := graph.add_node .Start
        some (.ok ((idg.1, idg.1), idg.2))
      else
        compile_seq fuel children ctx all_protocols graph none none
    | .Alt branches =>
      let joing := graph.add_node .Start
      match compile_alt fuel branches ctx all_protocols joing.2 joing.1 [] with
      | none => none
      | some (.error e) => some (.error e)
      | some (.ok altsg) =>
        let bg := altsg.2.add_node (.Branch altsg.1)
        some (.ok ((bg.1, joing.1), bg.2))
    | .Repeat min max body =>
      match compile_node fuel body ctx all_protocols graph with
      | none => none
      | some (.error e) => some (.error e)
      | some (.ok beg) =>
        let leg := beg.2.add_node .LoopExit
        let leng := leg.2.add_node (.LoopEntry beg.1.1 min max)
        let g3 := ((leng.2.add_edge leng.1 beg.1.1).add_edge beg.1.2 leng.1).add_edge
          leng.1 leg.1
        some (.ok ((leng.1, leg.1), g3))
    | .Ref protocol =>
      match alookup protocol all_protocols with
      | none => some (.error (.UnknownProtocolRef protocol))
      | some referenced => compile_node fuel referenced.root ctx all_protocols graph

/-- The `Seq` loop of `compile_node`, threading `first_entry` and `prev_exit`. -/
def compile_seq (fuel : Nat) (children : List ProtocolNode) (ctx : TypeContext)
    (all_protocols : List (String × Protocol)) (graph : NdaGraph)
    (first_entry prev_exit : Option Nat) :
    Option (Except ProtocolCompileError ((Nat × Nat) × NdaGraph)) :=
  match children with
  | [] =>
    match first_entry with
    | some fe =>
      match prev_exit with
      | some pe => some (.ok ((fe, pe), graph))
      | none => none
    | none => none
  | child :: rest =>
    match compile_node fuel child ctx all_protocols graph with
    | none => none
    | some (.error e) => some (.error e)
    | some (.ok eg) =>
      let g2 := match prev_exit with
        | some pe => eg.2.add_edge pe eg.1.1
        | none => eg.2
      compile_seq fuel rest ctx all_protocols g2 (some (first_entry.getD eg.1.1))
        (some eg.1.2)

/-- The `Alt` loop of `compile_node`, accumulating the branch alternatives. -/
def compile_alt (fuel : Nat) (branches : List AltBranch) (ctx : TypeContext)
    (all_protocols : List (String × Protocol)) (graph : NdaGraph) (join : Nat)
    (acc : List BranchEdge) :
    Option (Except ProtocolCompileError (List BranchEdge × NdaGraph)) :=
  match branches with
  | [] => some (.ok (acc, graph))
  | b :: rest =>
    match compile_node fuel b.body ctx all_protocols graph with
    | none => none
    | some (.error e) => some (.error e)
    | some (.ok beg) =>
      let g2 := beg.2.add_edge beg.1.2 join
      let cguard : Except ProtocolCompileError (Option CompiledExpr) :=
        match b.guard with
        | some guard_expr =>
          match compile_expr guard_expr ctx with
          | .error e => .error (.GuardCompile e)
          | .ok cg => .ok (some cg)
        | none => .ok none
      match cguard with
      | .error e => some (.error e)
      | .ok gopt =>
        compile_alt fuel rest ctx all_protocols g2 join
          (acc ++ [{ id := b.id, weight := (b.weight : ℚ), target := beg.1.1,
                     guard := gopt }])

end

/-- Compile a protocol into an NDA graph (`protocol.rs::compile_protocol`). -/
def compile_protocol (fuel : Nat) (protocol : Protocol) (ctx : TypeContext)
    (all_protocols : List (String × Protocol)) :
    Option (Except ProtocolCompileError NdaGraph) :=
  let graph := NdaGraph.new
  match compile_node fuel protocol.root ctx all_protocols graph with
  | none => none
  | some (.error e) => some (.error e)
  | some (.ok beg) =>
    some (.ok ((beg.2.add_edge beg.2.entry beg.1.1).add_edge beg.1.2 beg.2.exit))

-- ── beacon-compiler/src/compile.rs ───────────────────────────────────

/-- Top-level compilation errors (`compile.rs::CompileError`). -/
inductive CompileError : Type where
  | Validation : List ValidationError → CompileError
  | Predicate : Predicate.CompileError → CompileError
  | Protocol : ProtocolCompileError → CompileError

/-- The compiled IR (`compile.rs::CompiledIR`). -/
structure CompiledIR where
  graphs : List (String × NdaGraph)
  predicates : List (String × CompiledExpr)
  type_context : TypeContext

/-- The refinement-predicate loop of `compile`. -/
def compile_refinement_preds (refs : List (String × Refinement)) (ctx : TypeContext)
    (acc : List (String × CompiledExpr)) :
    Except Predicate.CompileError (List (String × CompiledExpr)) :=
  match refs with
  | [] => .ok acc
  | (name, refinement) :: rest =>
    match compile_expr refinement.predicate ctx with
    | .error e => .error e
    | .ok compiled => compile_refinement_preds rest ctx (ainsert name compiled acc)

/-- The property-predicate loop of `compile`. -/
def compile_property_preds (props : List (String × Property)) (ctx : TypeContext)
    (acc : List (String × CompiledExpr)) :
    Except Predicate.CompileError (List (String × CompiledExpr)) :=
  match props with
  | [] => .ok acc
  | (name, property) :: rest =>
    match property.predicate with
    | none => compile_property_preds rest ctx acc
    | some pred =>
      match compile_expr pred ctx with
      | .error e => .error e
      | .ok compiled =>
        compile_property_preds rest ctx (ainsert ("property:" ++ name) compiled acc)

/-- The protocol loop of `compile`. -/
def compile_graphs (fuel : Nat) (protos : List (String × Protocol)) (ctx : TypeContext)
    (all_protocols : List (String × Protocol)) (acc : List (String × NdaGraph)) :
    Option (Except ProtocolCompileError (List (String × NdaGraph))) :=
  match protos with
  | [] => some (.ok acc)
  | (name, protocol) :: rest =>
    match compile_protocol fuel protocol ctx all_protocols with
    | none => none
    | some (.error e) => some (.error e)
    | some (.ok graph) => compile_graphs fuel rest ctx all_protocols (ainsert name graph acc)

/-- Compile an IR (`compile.rs::compile`): validate, build the type context,
lower predicates, lower protocols. Fuel as in `compile_node`. -/
def compile (ir : BeaconIR) (fuel : Nat) : Option (Except CompileError CompiledIR) :=
  let errs := validate_ir ir
  if ¬ errs.isEmpty then some (.error (.Validation errs))
  else
    let ctx := TypeContext.from_ir ir
    match compile_refinement_preds ir.refinements ctx [] with
    | .error e => some (.error (.Predicate e))
    | .ok preds1 =>
      match compile_property_preds ir.properties ctx preds1 with
      | .error e => some (.error (.Predicate e))
      | .ok predicates =>
        match compile_graphs fuel ir.protocols ctx ir.protocols [] with
        | none => none
        | some (.error e) => some (.error (.Protocol e))
        | some (.ok graphs) =>
          some (.ok { graphs := graphs, predicates := predicates, type_context := ctx })

-- ── beacon-model: eval (twin source fresnel-fir-model/src/eval.rs) ───

/-- Model evaluation errors (`eval.rs::ModelEvalError`). The `{:?}`-formatted
payloads of the message strings are elided. -/
inductive ModelEvalError : Type where
  | FieldNotFound : (entity : String) → (field : String) → ModelEvalError
  | UnboundVariable : (var : String) → ModelEvalError
  | TypeError : (expected : String) → (actual : String) → ModelEvalError
  | Unsupported : (reason : String) → ModelEvalError
deriving DecidableEq, Repr

/-- Variable bindings mapping variable names to instance ids (`eval.rs::Bindings`);
named `EvalBindings` because `Bindings` is taken by the IR section 9 struct. -/
def EvalBindings : Type := List (String × InstanceId)

mutual

/-- Evaluate a compiled expression against model state (`eval.rs::eval_in_model`). -/
def eval_in_model (expr : CompiledExpr) (state : ModelState) (bindings : EvalBindings) :
    Except ModelEvalError Value :=
  match expr with
  | .Literal v => .ok v
  | .Field entity field =>
    match alookup entity bindings with
    | none => .error (.UnboundVariable entity)
    | some instance_id =>
      match state.get_instance instance_id with
      | none => .error (.FieldNotFound entity field)
      | some inst =>
        match inst.get_field field with
        | none => .error (.FieldNotFound entity field)
        | some v => .ok v
  | .Op op args => eval_op op args state bindings
  | .Quantifier kind var domain body =>
    match kind with
    | .Forall => eval_forall body var (state.all_instances domain) state bindings
    | .Exists => eval_exists body var (state.all_instances domain) state bindings
  | .FnCall _ name _ =>
    .error (.Unsupported ("Direct function call evaluation for '" ++ name
      ++ "' not yet implemented"))
  | .Is _ _ _ =>
    .error (.Unsupported "Is expression requires refinement predicate resolution")
termination_by (sizeOf expr, 0)

/-- Operator evaluation (`eval.rs::eval_op`). The source indexes `args[0]` and
`args[1]` and panics when they are absent; that is unreachable for
parser-produced expressions, and the embedding reports `Unsupported` there. -/
def eval_op (op : OpKind) (args : List CompiledExpr) (state : ModelState)
    (bindings : EvalBindings) : Except ModelEvalError Value :=
  match op, args with
  | .Eq, a0 :: a1 :: _ =>
    match eval_in_model a0 state bindings with
    | .error e => .error e
    | .ok left =>
      match eval_in_model a1 state bindings with
      | .error e => .error e
      | .ok right => .ok (.Bool (left = right))
  | .Neq, a0 :: a1 :: _ =>
    match eval_in_model a0 state bindings with
    | .error e => .error e
    | .ok left =>
      match eval_in_model a1 state bindings with
      | .error e => .error e
      | .ok right => .ok (.Bool (left ≠ right))
  | .And, l => eval_and l state bindings
  | .Or, l => eval_or l state bindings
  | .Not, a0 :: _ =>
    match eval_in_model a0 state bindings with
    | .error e => .error e
    | .ok (.Bool b) => .ok (.Bool (! b))
    | .ok _ => .error (.TypeError "bool" "other")
  | .Implies, a0 :: a1 :: _ =>
    match eval_in_model a0 state bindings with
    | .error e => .error e
    | .ok (.Bool false) => .ok (.Bool true)
    | .ok (.Bool true) => eval_in_model a1 state bindings
    | .ok _ => .error (.TypeError "bool" "other")
  | .Lt, a0 :: a1 :: _ => eval_int_cmp a0 a1 state bindings (fun a b => a < b)
  | .Lte, a0 :: a1 :: _ => eval_int_cmp a0 a1 state bindings (fun a b => a ≤ b)
  | .Gt, a0 :: a1 :: _ => eval_int_cmp a0 a1 state bindings (fun a b => a > b)
  | .Gte, a0 :: a1 :: _ => eval_int_cmp a0 a1 state bindings (fun a b => a ≥ b)
  | _, _ => .error (.Unsupported "operator argument index out of bounds")
termination_by (sizeOf args, 1)

/-- Integer comparison evaluation (`eval.rs::eval_int_cmp`). -/
def eval_int_cmp (a0 a1 : CompiledExpr) (state : ModelState) (bindings : EvalBindings)
    (cmp : Int → Int → Bool) : Except ModelEvalError Value :=
  match eval_in_model a0 state bindings with
  | .error e => .error e
  | .ok left =>
    match eval_in_model a1 state bindings with
    | .error e => .error e
    | .ok right =>
      match left, right with
      | .Int a, .Int b => .ok (.Bool (cmp a b))
      | _, _ => .error (.TypeError "int" "other")
termination_by (sizeOf a0 + sizeOf a1 + 1, 0)

/-- The `Forall` loop of `eval_in_model`. -/
def eval_forall (body : CompiledExpr) (var : String) (insts : List EntityInstance)
    (state : ModelState) (bindings : EvalBindings) : Except ModelEvalError Value :=
  match insts with
  | [] => .ok (.Bool true)
  | inst :: rest =>
    match eval_in_model body state (ainsert var inst.id bindings) with
    | .error e => .error e
    | .ok (.Bool false) => .ok (.Bool false)
    | .ok _ => eval_forall body var rest state bindings
termination_by (sizeOf body, insts.length + 1)

/-- The `Exists` loop of `eval_in_model`. -/
def eval_exists (body : CompiledExpr) (var : String) (insts : List EntityInstance)
    (state : ModelState) (bindings : EvalBindings) : Except ModelEvalError Value :=
  match insts with
  | [] => .ok (.Bool false)
  | inst :: rest =>
    match eval_in_model body state (ainsert var inst.id bindings) with
    | .error e => .error e
    | .ok (.Bool true) => .ok (.Bool true)
    | .ok _ => eval_exists body var rest state bindings
termination_by (sizeOf body, insts.length + 1)

/-- The `And` loop of `eval_op`. -/
def eval_and (args : List CompiledExpr) (state : ModelState) (bindings : EvalBindings) :
    Except ModelEvalError Value :=
  match args with
  | [] => .ok (.Bool true)
  | a :: rest =>
    match eval_in_model a state bindings with
    | .error e => .error e
    | .ok (.Bool false) => .ok (.Bool false)
    | .ok _ => eval_and rest state bindings
termination_by (sizeOf args, 0)

/-- The `Or` loop of `eval_op`. -/
def eval_or (args : List CompiledExpr) (state : ModelState) (bindings : EvalBindings) :
    Except ModelEvalError Value :=
  match args with
  | [] => .ok (.Bool false)
  | a :: rest =>
    match eval_in_model a state bindings with
    | .error e => .error e
    | .ok (.Bool true) => .ok (.Bool true)
    | .ok _ => eval_or rest state bindings
termination_by (sizeOf args, 0)

end

-- ── beacon-model: invariants (twin fresnel-fir-model/src/invariant.rs) ─

/-- A compiled property ready for checking (`invariant.rs::CompiledProperty`). -/
structure CompiledProperty where
  name : String
  expr : CompiledExpr

/-- A violation found during invariant checking (`invariant.rs::Violation`). -/
structure Violation where
  property_name : String
  message : String
deriving DecidableEq, Repr

/-- Check all invariant properties against the model (`invariant.rs::check_invariants`). -/
def check_invariants (state : ModelState) (properties : List CompiledProperty) :
    List Violation :=
  properties.filterMap (fun prop =>
    match eval_in_model prop.expr state [] with
    | .ok (.Bool true) => none
    | .ok (.Bool false) =>
      some { property_name := prop.name
             message := "Invariant '" ++ prop.name ++ "' violated" }
    | .ok _ =>
      some { property_name := prop.name
             message := "Invariant '" ++ prop.name ++ "' evaluated to non-boolean" }
    | .error _ =>
      some { property_name := prop.name
             message := "Invariant '" ++ prop.name ++ "' evaluation error" })

-- ── beacon-model/src/effect.rs ───────────────────────────────────────

/-- Effect application errors (`effect.rs::EffectError`). -/
inductive EffectError : Type where
  | NoInstance : (entity_type : String) → EffectError
  | ValueResolution : (reason : String) → EffectError
deriving DecidableEq, Repr

/-- Resolve a target variable name to an instance id
(`effect.rs::resolve_target_instance`). -/
def resolve_target_instance (state : ModelState) (var_name : String)
    (actor_id : InstanceId) (created_id : Option InstanceId) :
    Except EffectError InstanceId :=
  if var_name = "actor" then .ok actor_id
  else
    match created_id with
    | some id => .ok id
    | none =>
      match (state.all_instances "Document").getLast? with
      | some last => .ok last.id
      | none =>
        match (state.all_instances "User").getLast? with
        | some last => .ok last.id
        | none => .error (.NoInstance var_name)

/-- Resolve a JSON value into a model value (`effect.rs::resolve_value`). -/
def resolve_value (json_val : Json) (state : ModelState) (actor_id : InstanceId) :
    Except EffectError Value :=
  match json_val with
  | .bool b => .ok (.Bool b)
  | .str s => .ok (.Str s)
  | .num i => .ok (.Int i)
  | .arr [.str "field", v1, v2] =>
    let entity_var := match v1 with | .str s => s | _ => ""
    let field_name := match v2 with | .str s => s | _ => ""
    if entity_var = "actor" then
      match state.get_instance actor_id with
      | none => .error (.ValueResolution ("instance not found for " ++ entity_var))
      | some inst =>
        match inst.get_field field_name with
        | some v => .ok v
        | none =>
          .error (.ValueResolution ("field '" ++ field_name ++ "' not found on " ++ entity_var))
    else .error (.ValueResolution ("unknown entity variable: " ++ entity_var))
  | .arr _ => .error (.ValueResolution "unsupported array value")
  | _ => .error (.ValueResolution "unsupported value type")

/-- The `sets` loop of `apply_effect`; mutations before an error persist,
exactly as with the `&mut` state in the source. -/
def apply_sets (sets : List EffectSet) (state : ModelState) (actor_id : InstanceId)
    (created_id : Option InstanceId) : Except EffectError Unit × ModelState :=
  match sets with
  | [] => (.ok (), state)
  | set :: rest =>
    if set.target.length < 2 then
      apply_sets rest state actor_id created_id
    else
      let target_var := set.target.headD ""
      let field_name := (set.target.drop 1).headD ""
      match resolve_target_instance state target_var actor_id created_id with
      | .error e => (.error e, state)
      | .ok target_id =>
        match resolve_value set.value state actor_id with
        | .error e => (.error e, state)
        | .ok value =>
          apply_sets rest (state.set_field target_id field_name value) actor_id created_id

/-- Apply an effect to model state (`effect.rs::apply_effect`); returns the
(possibly partially) mutated state along with the result. -/
def apply_effect (state : ModelState) (effect : Effect) (actor_id : InstanceId) :
    Except EffectError Unit × ModelState :=
  match effect.creates with
  | some create =>
    let (id, st1) := state.create_instance create.entity
    apply_sets effect.sets st1 actor_id (some id)
  | none => apply_sets effect.sets state actor_id none

-- ── beacon-explore/src/solver/mod.rs ─────────────────────────────────

/-- A concrete value from a domain (`solver/mod.rs::DomainValue`). -/
inductive DomainValue : Type where
  | Bool : Bool → DomainValue
  | Int : Int → DomainValue
  | Enum : String → DomainValue
deriving DecidableEq, Repr

/-- A concrete test input vector (`solver/mod.rs::TestVector`). -/
structure TestVector where
  assignments : List (String × DomainValue)
deriving DecidableEq, Repr

-- ── beacon-explore/src/traversal/signal.rs ───────────────────────────

/-- Signals emitted by the traversal engine (`signal.rs::SignalType`). -/
inductive SignalType : Type where
  | CoverageDelta : (node_id : Nat) → (action : String) → SignalType
  | PropertyViolation : (property : String) → (details : String) → SignalType
  | Discrepancy : (action : String) → (model_value : String) → (observed_value : String) →
      SignalType
  | Crash : (action : String) → (message : String) → SignalType
  | Timeout : (action : String) → (fuel_consumed : Option Nat) → SignalType
  | GuardFailure : (branch_id : String) → (action : String) → SignalType
  | CoveragePlateau : (current_coverage : ℚ) → (delta_rate : ℚ) → SignalType
deriving DecidableEq, Repr

/-- A signal event with metadata (`signal.rs::SignalEvent`). -/
structure SignalEvent where
  thread_id : Nat
  local_step : Nat
  signal_type : SignalType
deriving DecidableEq, Repr

/-- A finding (`signal.rs::Finding`). -/
structure Finding where
  id : Nat
  signal : SignalEvent
  trace_indices : List Nat
  model_generation : Nat
deriving DecidableEq, Repr

-- ── beacon-explore/src/traversal/trace.rs ────────────────────────────

/-- The kind of traversal step taken (`trace.rs::TraceStepKind`). -/
inductive TraceStepKind : Type where
  | Start : TraceStepKind
  | End : TraceStepKind
  | BranchSelected : (branch_id : String) → (weight_used : ℚ) → TraceStepKind
  | LoopEnter : (iterations_chosen : Nat) → TraceStepKind
  | LoopExit : TraceStepKind
  | ActionExecuted : (action : String) → (guard_passed : Bool) →
      (return_value : Option Int) → (fuel_consumed : Option Nat) → TraceStepKind
  | GuardFailed : (action : String) → TraceStepKind
deriving DecidableEq, Repr

/-- A single traversal step (`trace.rs::TraceStep`). -/
structure TraceStep where
  node_id : Nat
  kind : TraceStepKind
  step_number : Nat
deriving DecidableEq, Repr

/-- The full traversal trace (`trace.rs::TraversalTrace`). -/
structure TraversalTrace where
  steps : List TraceStep
  next_step : Nat
deriving DecidableEq, Repr

def TraversalTrace.new : TraversalTrace := { steps := [], next_step := 0 }

def TraversalTrace.record (t : TraversalTrace) (node_id : Nat) (kind : TraceStepKind) :
    TraversalTrace :=
  { steps := t.steps ++ [{ node_id := node_id, kind := kind, step_number := t.next_step }]
    next_step := t.next_step + 1 }

-- ── beacon-explore/src/traversal/engine.rs ───────────────────────────

/-- Result of executing a single DUT action (`engine.rs::ActionOutcome`). -/
structure ActionOutcome where
  return_value : Option Int
  trapped : Bool
  fuel_consumed : Option Nat
  error : Option String
deriving DecidableEq, Repr

/-- Strategy decision at an alt node (`strategy.rs::BranchDecision`). -/
structure BranchDecision where
  branch_index : Nat
  branch_id : String
  weight_used : ℚ
deriving DecidableEq, Repr

/-- Strategy decision at a repeat node (`strategy.rs::RepeatDecision`). -/
structure RepeatDecision where
  iterations : Nat
deriving DecidableEq, Repr

/-- Coverage counters (`engine.rs::CoverageReport`). -/
structure CoverageReport where
  action_counts : List (String × Nat)
  branch_counts : List (String × Nat)
deriving DecidableEq, Repr

/-- The engine's pluggable collaborators. In the source the executor and the
vector source are trait type-parameters of `TraversalEngine` and the strategy
stack dispatches through `dyn Strategy`; theorems about the engine quantify
over them. `σe`, `σv`, `σs` are their respective internal states. -/
structure EngineHooks (σe σv σs : Type) where
  execute : σe → String → Option TestVector → ActionOutcome × σe
  next_vector : σv → String → Option TestVector × σv
  select_branch : σs → List BranchEdge → Nat → WeightTable → BranchDecision × σs
  choose_iterations : σs → Nat → Nat → RepeatDecision × σs

/-- The engine's per-pass fixed configuration: the compiled graph, the IR's
effects table, the compiled invariants, and the actor instance id. -/
structure EngineConfig (σe σv σs : Type) where
  hooks : EngineHooks σe σv σs
  graph : NdaGraph
  effects : List (String × Effect)
  invariants : List CompiledProperty
  actor_id : InstanceId

/-- Mutable engine state during a pass (the fields of `TraversalEngine` that
`run_pass` updates). -/
structure EngineSt (σe σv σs : Type) where
  model : ModelState
  executor : σe
  vector_source : σv
  strategy : σs
  weight_table : WeightTable
  trace : TraversalTrace
  signals : List SignalEvent
  findings : List Finding
  coverage : CoverageReport
  visited_nodes : List Nat
  step_counter : Nat
  finding_counter : Nat
  actions_executed : Nat
  guards_failed : Nat

/-- Does `needle` match at the head of `hay`? -/
def sub_here : List Char → List Char → Bool
  | [], _ => true
  | _ :: _, [] => false
  | c :: cs, h :: hs => c = h && sub_here cs hs

/-- Does `needle` occur contiguously anywhere in `hay`? -/
def has_sub (needle : List Char) : List Char → Bool
  | [] => needle.isEmpty
  | h :: hs => sub_here needle (h :: hs) || has_sub needle hs

/-- `str::contains` on the error message. -/
def str_contains (hay needle : String) : Bool :=
  has_sub needle.toList hay.toList

/-- `TraversalEngine::emit_signal`. -/
def emit_signal {σe σv σs : Type} (st : EngineSt σe σv σs) (signal_type : SignalType) :
    EngineSt σe σv σs :=
  { st with signals := st.signals
      ++ [{ thread_id := 0, local_step := st.step_counter, signal_type := signal_type }] }

/-- Placeholder read by `add_finding` only when no signal was ever emitted;
in the engine `add_finding` always directly follows `emit_signal`
(the source `unwrap`s there), so it is never read. -/
def dummy_signal : SignalEvent :=
  { thread_id := 0, local_step := 0, signal_type := .CoveragePlateau 0 0 }

/-- `TraversalEngine::add_finding`. -/
def add_finding {σe σv σs : Type} (st : EngineSt σe σv σs) : EngineSt σe σv σs :=
  let finding : Finding :=
    { id := st.finding_counter
      signal := (st.signals.getLast?).getD dummy_signal
      trace_indices := [st.trace.steps.length - 1]
      model_generation := st.model.generation }
  { st with findings := st.findings ++ [finding]
            finding_counter := st.finding_counter + 1 }

def record_trace {σe σv σs : Type} (st : EngineSt σe σv σs) (node_id : Nat)
    (kind : TraceStepKind) : EngineSt σe σv σs :=
  { st with trace := st.trace.record node_id kind }

/-- `TraversalEngine::push_successors` — `Vec` push/pop works at the end, so
the stack is embedded with its top at the head and pushes are conses. -/
def push_successors (g : NdaGraph) (node_id : Nat) (stack : List Nat) : List Nat :=
  g.edges.foldl (fun s e => if e.1 = node_id then e.2 :: s else s) stack

/-- `TraversalEngine::push_loop_exit_successors`. The source indexes
`nodes[to]` (a panic when out of bounds, unreachable for compiled graphs);
the embedding skips such an edge. -/
def push_loop_exit_successors (g : NdaGraph) (node_id : Nat) (stack : List Nat) : List Nat :=
  g.edges.foldl (fun s e =>
    if e.1 = node_id then
      match g.nodes.get? e.2 with
      | some .LoopExit => e.2 :: s
      | _ => s
    else s) stack

/-- `TraversalEngine::make_bindings`. -/
def make_bindings (actor_id : InstanceId) (model : ModelState) : EvalBindings :=
  let b : EvalBindings := ainsert "actor" actor_id []
  match (model.all_instances "Document").getLast? with
  | some last_doc => ainsert "self" last_doc.id (ainsert "doc" last_doc.id b)
  | none => b

/-- Increment a coverage counter (`*entry(..).or_insert(0) += 1`). -/
def bump_count (counts : List (String × Nat)) (key : String) : List (String × Nat) :=
  ainsert key ((alookup key counts).getD 0 + 1) counts

def set_insert (l : List Nat) (x : Nat) : List Nat :=
  if l.contains x then l else x :: l

/-- Step 1-2 of the action pipeline: evaluate the guard against the model
(`Ok(Value::Bool(true))` passes, anything else fails). -/
def guard_passes (actor_id : InstanceId) (guard : Option CompiledExpr)
    (model : ModelState) : Bool :=
  match guard with
  | some guard_expr =>
    match eval_in_model guard_expr model (make_bindings actor_id model) with
    | .ok (.Bool true) => true
    | _ => false
  | none => true

/-- Steps 3-9 of the action pipeline of a guard-passing Terminal: obtain a
vector, execute, classify traps, apply effects, record, check invariants,
track coverage, trace, push successors. -/
def process_terminal {σe σv σs : Type} (cfg : EngineConfig σe σv σs)
    (st : EngineSt σe σv σs) (node_id : Nat) (stack : List Nat) (action : String) :
    EngineSt σe σv σs × List Nat :=
  let (vector, vs) := cfg.hooks.next_vector st.vector_source action
  let st := { st with vector_source := vs }
  let (outcome, es) := cfg.hooks.execute st.executor action vector
  let st := { st with executor := es }
  let st :=
    if outcome.trapped then
      match outcome.error with
      | some err =>
        if str_contains err "Fuel" || str_contains err "fuel" then
          emit_signal st (.Timeout action outcome.fuel_consumed)
        else
          add_finding (emit_signal st (.Crash action err))
      | none => st
    else st
  let st :=
    match alookup action cfg.effects with
    | some effect => { st with model := (apply_effect st.model effect cfg.actor_id).2 }
    | none => st
  let st := { st with model := st.model.record_action action [] }
  let violations := check_invariants st.model cfg.invariants
  let st := violations.foldl (fun s v =>
    add_finding (emit_signal s (.PropertyViolation v.property_name v.message))) st
  let st := { st with
    coverage := { st.coverage with
      action_counts := bump_count st.coverage.action_counts action }
    actions_executed := st.actions_executed + 1 }
  let cnt : Nat := (alookup action st.coverage.action_counts).getD 0
  let st :=
    if cnt = 1 then
      emit_signal st (.CoverageDelta node_id action)
    else st
  let st := record_trace st node_id
    (.ActionExecuted action true outcome.return_value outcome.fuel_consumed)
  (st, push_successors cfg.graph node_id stack)

/-- One iteration of the `run_pass` dispatch loop: process the popped
`node_id` against the stack `stack`. `none` models a panic (an out-of-bounds
node or branch index). -/
def step_node {σe σv σs : Type} (cfg : EngineConfig σe σv σs) (st : EngineSt σe σv σs)
    (node_id : Nat) (stack : List Nat) : Option (EngineSt σe σv σs × List Nat) :=
  let st := { st with visited_nodes := set_insert st.visited_nodes node_id }
  match cfg.graph.nodes.get? node_id with
  | none => none
  | some node =>
    match node with
    | .Start =>
      let st := record_trace st node_id .Start
      some (st, push_successors cfg.graph node_id stack)
    | .End =>
      let st := record_trace st node_id .End
      some (st, stack)
    | .Terminal action guard =>
      let st := { st with step_counter := st.step_counter + 1 }
      if guard_passes cfg.actor_id guard st.model = false then
        let st := { st with guards_failed := st.guards_failed + 1 }
        let st := record_trace st node_id (.GuardFailed action)
        let st := emit_signal st (.GuardFailure "" action)
        some (st, push_successors cfg.graph node_id stack)
      else
        some (process_terminal cfg st node_id stack action)
    | .Branch alternatives =>
      let model_hash := st.model.generation
      let (decision, ss) :=
        cfg.hooks.select_branch st.strategy alternatives model_hash st.weight_table
      let st := { st with strategy := ss }
      let st := { st with
        coverage := { st.coverage with
          branch_counts := bump_count st.coverage.branch_counts decision.branch_id } }
      let st := record_trace st node_id (.BranchSelected decision.branch_id decision.weight_used)
      match alternatives.get? decision.branch_index with
      | none => none
      | some alt =>
        let target_node := alt.target
        let st :=
          if ¬ st.visited_nodes.contains target_node then
            emit_signal st (.CoverageDelta target_node decision.branch_id)
          else st
        some (st, target_node :: stack)
    | .LoopEntry body_start min max =>
      let (decision, ss) := cfg.hooks.choose_iterations st.strategy min max
      let st := { st with strategy := ss }
      let st := record_trace st node_id (.LoopEnter decision.iterations)
      let stack := push_loop_exit_successors cfg.graph node_id stack
      some (st, List.replicate decision.iterations body_start ++ stack)
    | .LoopExit =>
      let st := record_trace st node_id .LoopExit
      some (st, push_successors cfg.graph node_id stack)

/-- The `while let Some(node_id) = object_stack.pop()` loop of `run_pass`.
The loop is not structurally terminating (a cycle of non-Terminal nodes
consumes no budget), so the embedding carries fuel; `none` models a
non-terminating or panicking pass, never a returned state. -/
def run_loop {σe σv σs : Type} (cfg : EngineConfig σe σv σs) (max_steps : Nat) :
    Nat → EngineSt σe σv σs → List Nat → Option (EngineSt σe σv σs)
  | 0, _, _ => none
  | fuel + 1, st, stack =>
    match stack with
    | [] => some st
    | node_id :: rest =>
      if st.step_counter ≥ max_steps then some st
      else
        match step_node cfg st node_id rest with
        | none => none
        | some (st', stack') => run_loop cfg max_steps fuel st' stack'

/-- `TraversalEngine::run_pass`, starting from a freshly constructed engine
(`TraversalEngine::new`) with the given collaborator states. -/
def run_pass {σe σv σs : Type} (cfg : EngineConfig σe σv σs) (model : ModelState)
    (executor : σe) (vector_source : σv) (strategy : σs) (weight_table : WeightTable)
    (max_steps fuel : Nat) : Option (EngineSt σe σv σs) :=
  let st : EngineSt σe σv σs :=
    { model := model
      executor := executor
      vector_source := vector_source
      strategy := strategy
      weight_table := weight_table
      trace := TraversalTrace.new
      signals := []
      findings := []
      coverage := { action_counts := [], branch_counts := [] }
      visited_nodes := []
      step_counter := 0
      finding_counter := 0
      actions_executed := 0
      guards_failed := 0 }
  run_loop cfg max_steps fuel st [cfg.graph.entry]

-- ── claim-support definitions ────────────────────────────────────────

/-- How many `non_reproduction_counts` entries of `m` are at or past the
invalidation threshold and point at a capsule whose trigger action is
`branch_id` (the number of aggressive-decay applications one
`prepare_new_campaign` performs on such a weight). -/
def invalidation_multiplicity (m : CampaignMemory) (config : MemoryConfig)
    (branch_id : String) : Nat :=
  (m.non_reproduction_counts.filter (fun e =>
    decide (e.2 ≥ config.invalidation_threshold) &&
      match m.replay_capsules.get? e.1 with
      | some c => c.trigger_action == branch_id
      | none => false)).length

/-- Hooks whose executor always succeeds, whose vector source is empty, and
whose strategy always picks branch 0 and the minimum iteration count. -/
def trivial_hooks : EngineHooks Unit Unit Unit :=
  { execute := fun _ _ _ =>
      ({ return_value := none, trapped := false, fuel_consumed := none, error := none }, ())
    next_vector := fun _ _ => (none, ())
    select_branch := fun _ _ _ _ => ({ branch_index := 0, branch_id := "", weight_used := 0 }, ())
    choose_iterations := fun _ mn _ => ({ iterations := mn }, ()) }

/-- A graph with one always-false-guarded Terminal followed by an unguarded
Terminal: Start → Terminal "a" (guard false) → Terminal "b" → End. -/
def guarded_graph : NdaGraph :=
  { nodes := [.Start, .End,
      .Terminal "a" (some (.Literal (.Bool false))), .Terminal "b" none]
    edges := [(0, 2), (2, 3), (3, 1)]
    entry := 0
    exit := 1 }

def guarded_cfg : EngineConfig Unit Unit Unit :=
  { hooks := trivial_hooks
    graph := guarded_graph
    effects := []
    invariants := []
    actor_id := { entity_type := "User", index := 0 } }

/-- The run of `guarded_cfg` with a step budget of 1. -/
def guarded_run : Option (EngineSt Unit Unit Unit) :=
  run_pass guarded_cfg ModelState.new () () () WeightTable.new 1 10

/-- Hooks whose executor always traps with the given error message. -/
def trapping_hooks (msg : String) : EngineHooks Unit Unit Unit :=
  { execute := fun _ _ _ =>
      ({ return_value := none, trapped := true, fuel_consumed := some 777,
         error := some msg }, ())
    next_vector := fun _ _ => (none, ())
    select_branch := fun _ _ _ _ => ({ branch_index := 0, branch_id := "", weight_used := 0 }, ())
    choose_iterations := fun _ mn _ => ({ iterations := mn }, ()) }

/-- Start → Terminal "act" (no guard) → End. -/
def trap_graph : NdaGraph :=
  { nodes := [.Start, .End, .Terminal "act" none]
    edges := [(0, 2), (2, 1)]
    entry := 0
    exit := 1 }

def trap_cfg (msg : String) : EngineConfig Unit Unit Unit :=
  { hooks := trapping_hooks msg
    graph := trap_graph
    effects := []
    invariants := []
    actor_id := { entity_type := "User", index := 0 } }

/-- The engine state `TraversalEngine::new` starts a pass from. -/
def init_engine_st : EngineSt Unit Unit Unit :=
  { model := ModelState.new
    executor := ()
    vector_source := ()
    strategy := ()
    weight_table := WeightTable.new
    trace := TraversalTrace.new
    signals := []
    findings := []
    coverage := { action_counts := [], branch_counts := [] }
    visited_nodes := []
    step_counter := 0
    finding_counter := 0
    actions_executed := 0
    guards_failed := 0 }

/-- An IR with every section empty — it validates and compiles. -/
def ir_empty : BeaconIR :=
  { entities := []
    refinements := []
    functions := []
    protocols := []
    effects := []
    properties := []
    generators := []
    exploration :=
      { weights := { scope := "test", initial := "from_protocol", decay := "per_epoch" }
        directives_allowed := []
        adaptation_signals := []
        strategy := { initial := "pseudo_random", fallback := "pseudo_random" }
        epoch_size := 1
        coverage_floor_threshold := 0
        concurrency := { mode := "single", threads := 1 } }
    inputs := { domains := [], constraints := [], coverage := { targets := [], seed := 0, reproducible := true } }
    bindings := { runtime := "wasm", entry := "main", actions := [],
                  event_hooks := { mode := "poll", observe := [], capture := [] } } }

-- ─────────────────────────────────────────────────────────────────────
-- Theorems
-- ─────────────────────────────────────────────────────────────────────

theorem alookup_ainsert {κ β : Type} [DecidableEq κ] (k : κ) (v : β) (l : List (κ × β)) :
    alookup k (ainsert k v l) = some v := by
  simp [alookup, ainsert]

theorem alookup_aremove {κ β : Type} [DecidableEq κ] (k : κ) (l : List (κ × β)) :
    alookup k (aremove k l) = none := by
  induction l with
  | nil => rfl
  | cons p rest ih =>
    by_cases h : p.1 = k
    · simpa [aremove, h] using ih
    · simpa [aremove, alookup, h] using ih

/-- C5: for every model state S and snapshot token T taken from S, applying
rollback(T) after any sequence of create_instance, set_field and
record_action mutations restores the instance map (with all field values),
the trace, the generation counter, and the next-instance-id to exactly their
values at the time T was taken. -/
theorem rollback_restores_snapshot (s : ModelState) (ops : List ModelOp) :
    ModelState.rollback (applyOps s ops) s.snapshot = s := rfl

/-- C10: set_field on an InstanceId whose entity type is absent, or whose id
matches no existing instance of that type, leaves the entire state
unchanged. -/
theorem set_field_absent_id_noop (s : ModelState) (id : InstanceId) (field : String)
    (v : Value)
    (h : alookup id.entity_type s.instances = none ∨
      ∃ insts, alookup id.entity_type s.instances = some insts ∧
        ∀ inst ∈ insts, inst.id ≠ id) :
    s.set_field id field v = s := by
  unfold ModelState.set_field
  rcases h with h | ⟨insts, hl, hno⟩
  · rw [h]
  · rw [hl]
    have hany : insts.any (fun inst => decide (inst.id = id)) = false := by
      rw [List.any_eq_false]
      intro inst hm
      simpa using hno inst hm
    simp [hany]

/-- Witness for C10 at a concrete input: the fresh state has no "User"
instances, so writing to one is a no-op. -/
theorem set_field_absent_id_noop_witness :
    ModelState.new.set_field { entity_type := "User", index := 0 } "name" (.Bool true)
      = ModelState.new :=
  set_field_absent_id_noop ModelState.new _ "name" (.Bool true) (Or.inl rfl)

/-- C1: on a tracker with default skip budget 50 and no state for action `a`,
a first handle_timeout returns no directive and schedules a retry at fuel/2
(500000 when no fuel is given); a second handle_timeout without an
intervening report_retry_success returns exactly Skip{a, hash 0, remaining
50}; and report_retry_success after the first timeout clears the state, so a
subsequent timeout again returns no directive. -/
theorem timeout_two_step (t : TimeoutTracker) (a : String) (fuel : Option Nat)
    (h50 : t.default_skip_budget = 50)
    (hfresh : alookup a t.states = none) :
    (t.handle_timeout a fuel).1 = none
    ∧ (t.handle_timeout a fuel).2.needs_retry a
        = some ((fuel.map (fun f => f / 2)).getD 500000)
    ∧ (∀ fuel2, ((t.handle_timeout a fuel).2.handle_timeout a fuel2).1
        = some (.Skip a 0 50))
    ∧ (∀ fuel2,
        (((t.handle_timeout a fuel).2.report_retry_success a).handle_timeout a fuel2).1
        = none) := by
  unfold TimeoutTracker.handle_timeout TimeoutTracker.needs_retry
    TimeoutTracker.report_retry_success
  rw [hfresh]
  refine ⟨rfl, ?_, ?_, ?_⟩
  · simp [alookup_ainsert]
  · intro fuel2
    simp [alookup_ainsert, h50]
  · intro fuel2
    simp [alookup_aremove]

/-- Witness for C1 at concrete inputs: a fresh tracker, action "slow_fn",
first timeout at fuel 1000000, second at 500000. -/
theorem timeout_two_step_witness :
    (TimeoutTracker.new.handle_timeout "slow_fn" (some 1000000)).1 = none
    ∧ (TimeoutTracker.new.handle_timeout "slow_fn" (some 1000000)).2.needs_retry "slow_fn"
        = some 500000
    ∧ ((TimeoutTracker.new.handle_timeout "slow_fn" (some 1000000)).2.handle_timeout
        "slow_fn" (some 500000)).1 = some (.Skip "slow_fn" 0 50)
    ∧ ((((TimeoutTracker.new.handle_timeout "slow_fn" (some 1000000)).2.report_retry_success
        "slow_fn")).handle_timeout "slow_fn" none).1 = none := by
  obtain ⟨h1, h2, h3, h4⟩ :=
    timeout_two_step TimeoutTracker.new "slow_fn" (some 1000000) rfl rfl
  exact ⟨h1, h2, h3 (some 500000), h4 none⟩

/-- C7: get(b, h) returns the state-conditioned entry when one exists,
otherwise the per-branch default when one exists, otherwise 1.0; and after
adjust(b, h, m) the value of get(b, h) is m times its previous value. -/
theorem weight_table_get_adjust (wt : WeightTable) (b : String) (h : Nat) (m : ℚ) :
    (∀ w, alookup { branch_id := b, model_state_hash := h } wt.weights = some w →
      wt.get b h = w)
    ∧ (∀ d, alookup { branch_id := b, model_state_hash := h } wt.weights = none →
      alookup b wt.defaults = some d → wt.get b h = d)
    ∧ (alookup { branch_id := b, model_state_hash := h } wt.weights = none →
      alookup b wt.defaults = none → wt.get b h = 1)
    ∧ (wt.adjust b h m).get b h = wt.get b h * m := by
  refine ⟨?_, ?_, ?_, ?_⟩
  · intro w hw
    simp [WeightTable.get, hw]
  · intro d hw hd
    simp [WeightTable.get, hw, hd]
  · intro hw hd
    simp [WeightTable.get, hw, hd]
  · simp [WeightTable.adjust, WeightTable.set, WeightTable.get, alookup_ainsert]

/-- Witness for C7 at concrete inputs: a table with one state-conditioned
entry and one default. -/
theorem weight_table_get_adjust_witness :
    ((WeightTable.new.set "b" 7 3).get "b" 7 = 3)
    ∧ ((WeightTable.new.set_default "b" 5).get "b" 9 = 5)
    ∧ (WeightTable.new.get "c" 0 = 1)
    ∧ ((WeightTable.new.set "b" 7 3).adjust "b" 7 2).get "b" 7
        = (WeightTable.new.set "b" 7 3).get "b" 7 * 2 :=
  ⟨(weight_table_get_adjust (WeightTable.new.set "b" 7 3) "b" 7 0).1 3 (by decide),
   (weight_table_get_adjust (WeightTable.new.set_default "b" 5) "b" 9 0).2.1 5
     (by decide) (by decide),
   (weight_table_get_adjust WeightTable.new "c" 0 0).2.2.1 (by decide) (by decide),
   (weight_table_get_adjust (WeightTable.new.set "b" 7 3) "b" 7 2).2.2.2⟩

theorem alookup_map_value {κ β γ : Type} [DecidableEq κ] (k : κ) (f : β → γ)
    (l : List (κ × β)) :
    alookup k (l.map (fun p => (p.1, f p.2))) = (alookup k l).map f := by
  induction l with
  | nil => rfl
  | cons p rest ih =>
    by_cases h : p.1 = k
    · simp [alookup, h]
    · simpa [alookup, h] using ih

/-- C4: for every weight table and every w₀ > 0, clamp_min(w₀) raises every
strictly-positive state-conditioned weight below w₀ up to w₀, leaves every
weight that is exactly zero at zero, and afterwards every non-zero weight is
≥ w₀. (`clamp_min` is modelled from the spec; see its definition.) -/
theorem clamp_min_spec (wt : WeightTable) (w0 : ℚ) (_hw0 : 0 < w0) :
    (∀ k w, alookup k wt.weights = some w → 0 < w → w < w0 →
      alookup k (wt.clamp_min w0).weights = some w0)
    ∧ (∀ k, alookup k wt.weights = some 0 →
      alookup k (wt.clamp_min w0).weights = some 0)
    ∧ (∀ k w', alookup k (wt.clamp_min w0).weights = some w' → w' ≠ 0 → w0 ≤ w') := by
  have hmap : ∀ k, alookup k (wt.clamp_min w0).weights
      = (alookup k wt.weights).map (fun w => if w = 0 then 0 else max w w0) := by
    intro k
    exact alookup_map_value k (fun w => if w = 0 then 0 else max w w0) wt.weights
  refine ⟨?_, ?_, ?_⟩
  · intro k w hw hpos hlt
    rw [hmap, hw]
    have hne : w ≠ 0 := ne_of_gt hpos
    simp [hne, max_eq_right (le_of_lt hlt)]
  · intro k hw
    rw [hmap, hw]
    simp
  · intro k w' hw' hne
    rw [hmap] at hw'
    rcases Option.map_eq_some'.mp hw' with ⟨w, _, hfw⟩
    by_cases hz : w = 0
    · rw [if_pos hz] at hfw
      exact absurd hfw.symm hne
    · rw [if_neg hz] at hfw
      rw [← hfw]
      exact le_max_right w w0

/-- Witness for C4 at a concrete table: the weight 1 (strictly positive,
below w₀ = 2) is raised to 2, and the zero weight is preserved. -/
theorem clamp_min_spec_witness :
    (alookup { branch_id := "a", model_state_hash := 0 }
      (((WeightTable.new.set "z" 0 0).set "a" 0 1).clamp_min 2).weights = some 2)
    ∧ (alookup { branch_id := "z", model_state_hash := 0 }
      (((WeightTable.new.set "z" 0 0).set "a" 0 1).clamp_min 2).weights = some 0) := by
  have h := clamp_min_spec ((WeightTable.new.set "z" 0 0).set "a" 0 1) 2 (by norm_num)
  exact ⟨h.1 _ 1 (by decide) (by norm_num) (by norm_num), h.2.1 _ (by decide)⟩

theorem fold_invalidation (caps : List ReplayCapsule) (config : MemoryConfig)
    (E : List (Nat × Nat)) (ws : List LearnedWeight) :
    E.foldl (CampaignMemory.apply_invalidation caps config) ws
      = ws.map (fun w => { w with weight := w.weight *
          config.aggressive_decay ^ ((E.filter (fun e =>
            decide (e.2 ≥ config.invalidation_threshold) &&
              match caps.get? e.1 with
              | some c => c.trigger_action == w.branch_id
              | none => false)).length) }) := by
  induction E generalizing ws with
  | nil =>
    have hf : (fun (w : LearnedWeight) => { w with weight := w.weight *
        config.aggressive_decay ^ ((([] : List (Nat × Nat)).filter (fun e =>
          decide (e.2 ≥ config.invalidation_threshold) &&
            match caps.get? e.1 with
            | some c => c.trigger_action == w.branch_id
            | none => false)).length) }) = fun w => w := by
      funext w
      simp
    rw [List.foldl_nil, hf, List.map_id']
  | cons e E' ih =>
    rw [List.foldl_cons, ih]
    by_cases hthr : e.2 ≥ config.invalidation_threshold
    · rcases hc : caps.get? e.1 with _ | c
      · have happ : CampaignMemory.apply_invalidation caps config ws e = ws := by
          unfold CampaignMemory.apply_invalidation
          rw [if_pos hthr, hc]
        rw [happ]
        apply List.map_congr_left
        intro w _
        have hpred : (decide (e.2 ≥ config.invalidation_threshold) &&
            match caps.get? e.1 with
            | some c => c.trigger_action == w.branch_id
            | none => false) = false := by
          rw [hc]
          simp
        simp only [List.filter_cons, hpred]
        simp
      · have happ : CampaignMemory.apply_invalidation caps config ws e
            = ws.map (fun w =>
                if w.branch_id = c.trigger_action then
                  { w with weight := w.weight * config.aggressive_decay }
                else w) := by
          unfold CampaignMemory.apply_invalidation
          rw [if_pos hthr, hc]
        rw [happ, List.map_map]
        apply List.map_congr_left
        intro w _
        by_cases hb : w.branch_id = c.trigger_action
        · have hpred : (decide (e.2 ≥ config.invalidation_threshold) &&
              match caps.get? e.1 with
              | some c => c.trigger_action == w.branch_id
              | none => false) = true := by
            rw [hc]
            simp [hthr, hb]
          simp only [Function.comp_apply, if_pos hb, List.filter_cons, hpred,
            if_true, List.length_cons]
          show ({ w with weight := w.weight * config.aggressive_decay *
              config.aggressive_decay ^ _ } : LearnedWeight) = _
          congr 1
          rw [pow_succ]
          ring
        · have hpred : (decide (e.2 ≥ config.invalidation_threshold) &&
              match caps.get? e.1 with
              | some c => c.trigger_action == w.branch_id
              | none => false) = false := by
            rw [hc]
            show (decide (e.2 ≥ config.invalidation_threshold)
              && (c.trigger_action == w.branch_id)) = false
            have hbeq : (c.trigger_action == w.branch_id) = false := by
              rw [beq_eq_false_iff_ne]
              intro hcontra
              exact hb hcontra.symm
            rw [hbeq, Bool.and_false]
          simp only [Function.comp_apply, if_neg hb, List.filter_cons, hpred]
          simp
    · have happ : CampaignMemory.apply_invalidation caps config ws e = ws := by
        unfold CampaignMemory.apply_invalidation
        rw [if_neg hthr]
      rw [happ]
      apply List.map_congr_left
      intro w _
      have hpred : (decide (e.2 ≥ config.invalidation_threshold) &&
          match caps.get? e.1 with
          | some c => c.trigger_action == w.branch_id
          | none => false) = false := by
        simp [hthr]
      simp only [List.filter_cons, hpred]
      simp

theorem prepare_one_weights (m : CampaignMemory) (config : MemoryConfig) :
    (m.prepare_new_campaign config).learned_weights = m.learned_weights.map (fun w =>
      { w with weight := w.weight *
          (config.cross_campaign_decay *
            config.aggressive_decay ^ invalidation_multiplicity m config w.branch_id) }) := by
  show (m.non_reproduction_counts.foldl
      (CampaignMemory.apply_invalidation m.replay_capsules config)
      (m.learned_weights.map (fun w =>
        { w with weight := w.weight * config.cross_campaign_decay }))) = _
  rw [fold_invalidation, List.map_map]
  apply List.map_congr_left
  intro w _
  simp only [Function.comp_apply]
  unfold invalidation_multiplicity
  show ({ w with weight := w.weight * config.cross_campaign_decay *
      config.aggressive_decay ^ _ } : LearnedWeight) = _
  congr 1
  ring

/-- C9: running prepare_new_campaign K times multiplies every learned weight
by cross_campaign_decay^K, additionally multiplied (on each of the K runs)
by one aggressive_decay factor per at-threshold non-reproduction entry whose
capsule's trigger action equals the weight's branch id; the campaign count
increases by K. -/
theorem prepare_new_campaign_k (m : CampaignMemory) (config : MemoryConfig) (K : Nat) :
    (prepareK m config K).campaign_count = m.campaign_count + K
    ∧ (prepareK m config K).learned_weights = m.learned_weights.map (fun w =>
        { w with weight := w.weight *
            (config.cross_campaign_decay *
              config.aggressive_decay ^ invalidation_multiplicity m config w.branch_id) ^ K }) := by
  induction K generalizing m with
  | zero =>
    refine ⟨rfl, ?_⟩
    have hf : (fun (w : LearnedWeight) => { w with weight := w.weight *
        (config.cross_campaign_decay *
          config.aggressive_decay ^ invalidation_multiplicity m config w.branch_id) ^ 0 })
        = fun w => w := by
      funext w
      simp
    rw [hf, List.map_id']
    rfl
  | succ K ih =>
    have hstep : prepareK m config (K + 1)
        = prepareK (m.prepare_new_campaign config) config K := rfl
    have hsame : ∀ b, invalidation_multiplicity (m.prepare_new_campaign config) config b
        = invalidation_multiplicity m config b := by
      intro b
      rfl
    obtain ⟨hc, hw⟩ := ih (m.prepare_new_campaign config)
    constructor
    · rw [hstep, hc]
      show m.campaign_count + 1 + K = m.campaign_count + (K + 1)
      omega
    · rw [hstep, hw, prepare_one_weights, List.map_map]
      apply List.map_congr_left
      intro w _
      simp only [Function.comp_apply, hsame]
      show ({ w with weight := w.weight * _ * _ ^ K } : LearnedWeight) = _
      congr 1
      rw [pow_succ]
      ring

theorem pairwiseAtMostOne_length (l : List (String × Nat)) :
    (pairwiseAtMostOne l).length = l.length.choose 2 := by
  induction l with
  | nil => rfl
  | cons v rest ih =>
    rw [pairwiseAtMostOne, List.length_append, List.length_map, ih, List.length_cons]
    rw [Nat.choose_succ_succ, Nat.choose_one_right]

theorem allocVariants_length (labels : List String) (next_var : Nat) :
    (allocVariants labels next_var).length = labels.length := by
  simp [allocVariants]

/-- C8: an Enum domain with N ≥ 1 labels encodes to exactly N fresh SAT
variables and exactly 1 + N·(N-1)/2 structural clauses (one at-least-one
clause plus one pairwise at-most-one clause per unordered pair); an enum
with zero labels is rejected with EmptyEnum. -/
theorem enum_encoding_counts (name : String) (values : List String) (next_var : Nat)
    (clauses : List (List Lit)) :
    (values = [] →
      encode_domain name (.Enum values) next_var clauses = .error (.EmptyEnum name))
    ∧ (values ≠ [] → ∃ enc cl,
      encode_domain name (.Enum values) next_var clauses
        = .ok (enc, next_var + values.length, cl)
      ∧ cl.length = clauses.length + 1 + values.length * (values.length - 1) / 2
      ∧ (match enc.encoding with
         | .OneHot variants => variants.length = values.length
         | .Bool _ => False)) := by
  constructor
  · intro h
    subst h
    rfl
  · intro h
    have hne : values.isEmpty = false := by
      cases values with
      | nil => exact absurd rfl h
      | cons a l => rfl
    refine ⟨{ name := name, encoding := .OneHot (allocVariants values next_var) },
      clauses ++ [(allocVariants values next_var).map (fun v => Lit.mk v.2 true)]
        ++ pairwiseAtMostOne (allocVariants values next_var), ?_, ?_, ?_⟩
    · simp [encode_domain, hne]
    · rw [List.length_append, List.length_append, List.length_singleton,
        pairwiseAtMostOne_length, allocVariants_length, Nat.choose_two_right]
    · show (allocVariants values next_var).length = values.length
      exact allocVariants_length values next_var

/-- Witness for C8 at concrete inputs: the empty enum is rejected; a
three-label enum starting at variable 5 allocates variables 5..7 and adds
1 + 3 clauses. -/
theorem enum_encoding_counts_witness :
    (encode_domain "color" (.Enum []) 0 [] = .error (.EmptyEnum "color"))
    ∧ ∃ enc cl, encode_domain "color" (.Enum ["r", "g", "b"]) 5 [] = .ok (enc, 5 + 3, cl)
      ∧ cl.length = 0 + 1 + 3 * (3 - 1) / 2
      ∧ (match enc.encoding with
         | .OneHot variants => variants.length = 3
         | .Bool _ => False) :=
  ⟨(enum_encoding_counts "color" [] 0 []).1 rfl,
   (enum_encoding_counts "color" ["r", "g", "b"] 5 []).2 (by decide)⟩

theorem check_invariants_nil (s : ModelState) : check_invariants s [] = [] := rfl

/-- C6: for an executed Terminal whose outcome has trapped = true and a
present error string, the engine emits a Timeout signal (carrying the
consumed fuel) and adds no finding when the error mentions "fuel"/"Fuel",
and emits a Crash signal adding exactly one finding (whose signal is that
Crash) otherwise. Stated for engines with no compiled invariants, so that
the finding count isolates the trap classification. -/
theorem trap_classification {σe σv σs : Type} (cfg : EngineConfig σe σv σs)
    (st : EngineSt σe σv σs) (node_id : Nat) (stack : List Nat) (action : String)
    (guard : Option CompiledExpr) (outcome : ActionOutcome) (err : String)
    (hnode : cfg.graph.nodes.get? node_id = some (GraphNode.Terminal action guard))
    (hguard : guard_passes cfg.actor_id guard st.model = true)
    (hexec : (cfg.hooks.execute st.executor action
      (cfg.hooks.next_vector st.vector_source action).1).1 = outcome)
    (htrap : outcome.trapped = true)
    (herr : outcome.error = some err)
    (hinv : cfg.invariants = []) :
    ∃ st' stack', step_node cfg st node_id stack = some (st', stack')
    ∧ ((str_contains err "Fuel" || str_contains err "fuel") = true →
        st'.findings = st.findings
        ∧ ∃ tail, st'.signals = st.signals
            ++ { thread_id := 0, local_step := st.step_counter + 1,
                 signal_type := .Timeout action outcome.fuel_consumed } :: tail)
    ∧ ((str_contains err "Fuel" || str_contains err "fuel") = false →
        ∃ f tail, st'.findings = st.findings ++ [f]
          ∧ f.signal.signal_type = .Crash action err
          ∧ st'.signals = st.signals
            ++ { thread_id := 0, local_step := st.step_counter + 1,
                 signal_type := .Crash action err } :: tail) := by
  set st2 : EngineSt σe σv σs :=
    { st with visited_nodes := set_insert st.visited_nodes node_id,
              step_counter := st.step_counter + 1 } with hst2
  have hstep : step_node cfg st node_id stack
      = some (process_terminal cfg st2 node_id stack action) := by
    rw [step_node, hnode]
    have hguard2 : guard_passes cfg.actor_id guard st2.model = true := hguard
    simp only [hguard2]
    rfl
  rcases hv : cfg.hooks.next_vector st2.vector_source action with ⟨vector, vs⟩
  have hv1 : (cfg.hooks.next_vector st.vector_source action).1 = vector := by
    rw [show st.vector_source = st2.vector_source from rfl, hv]
  rcases he : cfg.hooks.execute st2.executor action vector with ⟨outcome2, es⟩
  have houtcome : outcome2 = outcome := by
    rw [← hexec, hv1, show st.executor = st2.executor from rfl, he]
  rw [houtcome] at he
  have hpt : process_terminal cfg st2 node_id stack action
      = (let st3 := { st2 with vector_source := vs, executor := es }
         let st4 :=
           if str_contains err "Fuel" || str_contains err "fuel" then
             emit_signal st3 (.Timeout action outcome.fuel_consumed)
           else add_finding (emit_signal st3 (.Crash action err))
         let st5 :=
           match alookup action cfg.effects with
           | some effect => { st4 with model := (apply_effect st4.model effect cfg.actor_id).2 }
           | none => st4
         let st6 := { st5 with model := st5.model.record_action action [] }
         let st7 := { st6 with
           coverage := { st6.coverage with
             action_counts := bump_count st6.coverage.action_counts action }
           actions_executed := st6.actions_executed + 1 }
         let st8 :=
           if (alookup action st7.coverage.action_counts).getD 0 = 1 then
             emit_signal st7 (.CoverageDelta node_id action)
           else st7
         let st9 := record_trace st8 node_id
           (.ActionExecuted action true outcome.return_value outcome.fuel_consumed)
         (st9, push_successors cfg.graph node_id stack)) := by
    rw [process_terminal, hv]
    simp only [he, htrap, herr, if_true, hinv, check_invariants_nil, List.foldl_nil]
  rw [hpt] at hstep
  refine ⟨_, _, hstep, ?_, ?_⟩
  · intro hcontain
    simp only [hcontain, if_true]
    rcases halk : alookup action cfg.effects with _ | eff <;>
      simp only [halk] <;>
      (split <;>
        [exact ⟨rfl, [{ thread_id := 0, local_step := st.step_counter + 1,
                        signal_type := .CoverageDelta node_id action }],
           by simp [emit_signal, record_trace, hst2]⟩;
         exact ⟨rfl, [], by simp [emit_signal, record_trace, hst2]⟩])
  · intro hcontain
    simp only [hcontain, Bool.false_eq_true, if_false]
    rcases halk : alookup action cfg.effects with _ | eff <;>
      simp only [halk] <;>
      (split <;>
      [refine ⟨{ id := st.finding_counter
                 signal := { thread_id := 0, local_step := st.step_counter + 1,
                             signal_type := .Crash action err }
                 trace_indices := [st.trace.steps.length - 1]
                 model_generation := st.model.generation },
         [{ thread_id := 0, local_step := st.step_counter + 1,
            signal_type := .CoverageDelta node_id action }], ?_, rfl, ?_⟩;
       refine ⟨{ id := st.finding_counter
                 signal := { thread_id := 0, local_step := st.step_counter + 1,
                             signal_type := .Crash action err }
                 trace_indices := [st.trace.steps.length - 1]
                 model_generation := st.model.generation }, [], ?_, rfl, ?_⟩] <;>
      simp [add_finding, emit_signal, record_trace, hst2])

/-- Witness for C6 at a concrete input: an executor trapping with "boom"
(no fuel substring) on the Terminal "act"; the hypotheses hold by
computation. -/
theorem trap_classification_witness :
    ∃ st' stack',
      step_node (trap_cfg "boom") init_engine_st 2 [] = some (st', stack')
      ∧ ((str_contains "boom" "Fuel" || str_contains "boom" "fuel") = true →
          st'.findings = init_engine_st.findings
          ∧ ∃ tail, st'.signals = init_engine_st.signals
              ++ { thread_id := 0, local_step := init_engine_st.step_counter + 1,
                   signal_type := .Timeout "act" (some 777) } :: tail)
      ∧ ((str_contains "boom" "Fuel" || str_contains "boom" "fuel") = false →
          ∃ f tail, st'.findings = init_engine_st.findings ++ [f]
            ∧ f.signal.signal_type = .Crash "act" "boom"
            ∧ st'.signals = init_engine_st.signals
              ++ { thread_id := 0, local_step := init_engine_st.step_counter + 1,
                   signal_type := .Crash "act" "boom" } :: tail) :=
  trap_classification (trap_cfg "boom") init_engine_st 2 [] "act" none
    { return_value := none, trapped := true, fuel_consumed := some 777,
      error := some "boom" }
    "boom" rfl rfl rfl rfl rfl rfl

@[simp] theorem emit_signal_step {σe σv σs : Type} (s : EngineSt σe σv σs) (t : SignalType) :
    (emit_signal s t).step_counter = s.step_counter := rfl

@[simp] theorem emit_signal_actions {σe σv σs : Type} (s : EngineSt σe σv σs)
    (t : SignalType) : (emit_signal s t).actions_executed = s.actions_executed := rfl

@[simp] theorem emit_signal_guards {σe σv σs : Type} (s : EngineSt σe σv σs)
    (t : SignalType) : (emit_signal s t).guards_failed = s.guards_failed := rfl

@[simp] theorem add_finding_step {σe σv σs : Type} (s : EngineSt σe σv σs) :
    (add_finding s).step_counter = s.step_counter := rfl

@[simp] theorem add_finding_actions {σe σv σs : Type} (s : EngineSt σe σv σs) :
    (add_finding s).actions_executed = s.actions_executed := rfl

@[simp] theorem add_finding_guards {σe σv σs : Type} (s : EngineSt σe σv σs) :
    (add_finding s).guards_failed = s.guards_failed := rfl

@[simp] theorem record_trace_step {σe σv σs : Type} (s : EngineSt σe σv σs) (n : Nat)
    (k : TraceStepKind) : (record_trace s n k).step_counter = s.step_counter := rfl

@[simp] theorem record_trace_actions {σe σv σs : Type} (s : EngineSt σe σv σs) (n : Nat)
    (k : TraceStepKind) : (record_trace s n k).actions_executed = s.actions_executed := rfl

@[simp] theorem record_trace_guards {σe σv σs : Type} (s : EngineSt σe σv σs) (n : Nat)
    (k : TraceStepKind) : (record_trace s n k).guards_failed = s.guards_failed := rfl

@[simp] theorem viol_foldl_step {σe σv σs : Type} (l : List Violation)
    (s : EngineSt σe σv σs) :
    (l.foldl (fun s v =>
      add_finding (emit_signal s (.PropertyViolation v.property_name v.message))) s).step_counter
      = s.step_counter := by
  induction l generalizing s with
  | nil => rfl
  | cons v rest ih => simpa using ih (add_finding (emit_signal s _))

@[simp] theorem viol_foldl_actions {σe σv σs : Type} (l : List Violation)
    (s : EngineSt σe σv σs) :
    (l.foldl (fun s v =>
      add_finding (emit_signal s
        (.PropertyViolation v.property_name v.message))) s).actions_executed
      = s.actions_executed := by
  induction l generalizing s with
  | nil => rfl
  | cons v rest ih => simpa using ih (add_finding (emit_signal s _))

@[simp] theorem viol_foldl_guards {σe σv σs : Type} (l : List Violation)
    (s : EngineSt σe σv σs) :
    (l.foldl (fun s v =>
      add_finding (emit_signal s (.PropertyViolation v.property_name v.message))) s).guards_failed
      = s.guards_failed := by
  induction l generalizing s with
  | nil => rfl
  | cons v rest ih => simpa using ih (add_finding (emit_signal s _))

theorem process_terminal_counters {σe σv σs : Type} (cfg : EngineConfig σe σv σs)
    (st : EngineSt σe σv σs) (node_id : Nat) (stack : List Nat) (action : String) :
    ((process_terminal cfg st node_id stack action).1.step_counter = st.step_counter)
    ∧ ((process_terminal cfg st node_id stack action).1.actions_executed
        = st.actions_executed + 1)
    ∧ ((process_terminal cfg st node_id stack action).1.guards_failed
        = st.guards_failed) := by
  rw [process_terminal]
  rcases hv : cfg.hooks.next_vector st.vector_source action with ⟨vector, vs⟩
  simp only [hv]
  rcases he : cfg.hooks.execute st.executor action vector with ⟨outcome, es⟩
  simp only [he]
  rcases herr : outcome.error with _ | err <;>
    rcases halk : alookup action cfg.effects with _ | eff <;>
      simp [herr, halk,
        apply_ite (fun (x : EngineSt σe σv σs) => x.step_counter),
        apply_ite (fun (x : EngineSt σe σv σs) => x.actions_executed),
        apply_ite (fun (x : EngineSt σe σv σs) => x.guards_failed)]

theorem step_node_counters {σe σv σs : Type} (cfg : EngineConfig σe σv σs)
    (st : EngineSt σe σv σs) (node_id : Nat) (stack : List Nat)
    (st' : EngineSt σe σv σs) (stack' : List Nat)
    (h : step_node cfg st node_id stack = some (st', stack')) :
    st'.step_counter + st.actions_executed + st.guards_failed
      = st.step_counter + st'.actions_executed + st'.guards_failed
    ∧ st.step_counter ≤ st'.step_counter
    ∧ st'.step_counter ≤ st.step_counter + 1 := by
  rw [step_node] at h
  first
    | dsimp only at h
    | skip
  repeat' split at h
  all_goals
    first
      | exact Option.noConfusion h
      | (injection h with h
         have h1 := congrArg Prod.fst h
         simp only at h1
         first
           | (subst h1
              first
                | exact ⟨rfl, le_refl _, Nat.le_succ _⟩
                | (refine ⟨?_, ?_, ?_⟩ <;> simp <;> omega)
                | (split <;> exact ⟨rfl, le_refl _, Nat.le_succ _⟩))
           | (obtain ⟨hc1, hc2, hc3⟩ := process_terminal_counters cfg
                { st with visited_nodes := set_insert st.visited_nodes node_id,
                          step_counter := st.step_counter + 1 }
                node_id stack _
              rw [h1] at hc1 hc2 hc3
              refine ⟨?_, ?_, ?_⟩ <;> simp only [hc1, hc2, hc3] <;> omega))

theorem run_loop_counters {σe σv σs : Type} (cfg : EngineConfig σe σv σs)
    (max_steps : Nat) :
    ∀ (fuel : Nat) (st : EngineSt σe σv σs) (stack : List Nat) (out : EngineSt σe σv σs),
      run_loop cfg max_steps fuel st stack = some out →
      (out.step_counter + st.actions_executed + st.guards_failed
        = st.step_counter + out.actions_executed + out.guards_failed)
      ∧ (st.step_counter ≤ max_steps → out.step_counter ≤ max_steps) := by
  intro fuel
  induction fuel with
  | zero =>
    intro st stack out h
    exact Option.noConfusion h
  | succ fuel ih =>
    intro st stack out h
    cases stack with
    | nil =>
      have h2 : some st = some out := h
      injection h2 with h2
      subst h2
      exact ⟨rfl, fun hle => hle⟩
    | cons node_id rest =>
      have h2 : (if st.step_counter ≥ max_steps then some st
          else match step_node cfg st node_id rest with
            | none => none
            | some (st', stack') => run_loop cfg max_steps fuel st' stack') = some out := h
      by_cases hb : st.step_counter ≥ max_steps
      · rw [if_pos hb] at h2
        injection h2 with h2
        subst h2
        exact ⟨rfl, fun hle => hle⟩
      · rw [if_neg hb] at h2
        rcases hs : step_node cfg st node_id rest with _ | p
        · rw [hs] at h2
          exact Option.noConfusion h2
        · rcases p with ⟨st2, stack2⟩
          rw [hs] at h2
          obtain ⟨ha, hb2, hb3⟩ := step_node_counters cfg st node_id rest st2 stack2 hs
          obtain ⟨ia, ib⟩ := ih st2 stack2 out h2
          constructor
          · omega
          · intro hle
            apply ib
            omega

/-- C2 (amended): the `max_steps` budget is consumed by every Terminal
dispatch — one step per executed action AND one step per guard failure
(guard-failed Terminals are not free); Branch, LoopEntry, LoopExit, Start
and End dispatches consume none; and the budget is never exceeded. The
`fuel` argument only makes the loop total: `some` results are exactly the
passes that stop by emptying the stack or exhausting the budget. -/
theorem run_pass_budget {σe σv σs : Type} (cfg : EngineConfig σe σv σs)
    (model : ModelState) (executor : σe) (vector_source : σv) (strategy : σs)
    (weight_table : WeightTable) (max_steps fuel : Nat) (out : EngineSt σe σv σs)
    (h : run_pass cfg model executor vector_source strategy weight_table max_steps fuel
      = some out) :
    out.step_counter = out.actions_executed + out.guards_failed
    ∧ out.step_counter ≤ max_steps := by
  obtain ⟨ha, hb⟩ := run_loop_counters cfg max_steps fuel _ [cfg.graph.entry] out h
  dsimp only at ha hb
  exact ⟨by omega, hb (Nat.zero_le _)⟩

theorem guarded_run_counts :
    guarded_run.map (fun st => (st.step_counter, st.actions_executed, st.guards_failed))
      = some (1, 0, 1) := by
  simp [guarded_run, run_pass, run_loop, step_node, guard_passes, guarded_cfg, guarded_graph,
    trivial_hooks, push_successors, record_trace, emit_signal, set_insert, eval_in_model,
    ModelState.new, make_bindings, WeightTable.new, TraversalTrace.new, process_terminal]

/-- C2 counterexample: with budget 1, the pass over `guarded_graph` spends
its entire budget on the Terminal "a" whose guard evaluates to false —
zero actions executed, one guard failure — so the following Terminal "b"
is never reached. Under the claim a guard-failed Terminal would consume no
budget and "b" would have executed. -/
theorem guard_failure_consumes_budget :
    guarded_run.map (fun st => (st.step_counter, st.actions_executed, st.guards_failed))
      = some (1, 0, 1) :=
  guarded_run_counts

/-- Witness for the amended C2 at a concrete input: the pass over
`guarded_graph` with budget 1. -/
theorem run_pass_budget_witness :
    guarded_run.map (fun out => (out.step_counter, out.actions_executed + out.guards_failed))
      = some (1, 1)
    ∧ guarded_run.map (fun out => decide (out.step_counter ≤ 1)) = some true := by
  have hc := guarded_run_counts
  rcases hr : guarded_run with _ | out
  · rw [hr] at hc
    exact Option.noConfusion hc
  · rw [hr] at hc
    simp only [Option.map_some', Option.some.injEq, Prod.mk.injEq] at hc
    obtain ⟨h1, h2, h3⟩ := hc
    have hb := run_pass_budget guarded_cfg ModelState.new () () () WeightTable.new 1 10 out hr
    simp only [Option.map_some', Option.some.injEq, Prod.mk.injEq]
    refine ⟨⟨h1, ?_⟩, ?_⟩
    · rw [h2, h3]
    · simp [hb.2]

theorem alookup_mem {κ β : Type} [DecidableEq κ] (k : κ) (v : β) :
    ∀ l : List (κ × β), alookup k l = some v → (k, v) ∈ l := by
  intro l
  induction l with
  | nil => intro h; exact Option.noConfusion h
  | cons p rest ih =>
    intro h
    rw [alookup] at h
    by_cases hk : p.1 = k
    · rw [if_pos hk] at h
      injection h with h
      subst h
      subst hk
      exact List.mem_cons_self _ _
    · rw [if_neg hk] at h
      exact List.mem_cons_of_mem _ (ih h)

theorem foldl_append_eq_nil {α β : Type} (f : α → List β) :
    ∀ (l : List α) (acc : List β),
      l.foldl (fun a x => a ++ f x) acc = [] → acc = [] ∧ ∀ x ∈ l, f x = [] := by
  intro l
  induction l with
  | nil =>
    intro acc h
    exact ⟨h, by intro x hx; exact absurd hx (List.not_mem_nil x)⟩
  | cons y rest ih =>
    intro acc h
    rw [List.foldl_cons] at h
    obtain ⟨hacc, hrest⟩ := ih (acc ++ f y) h
    obtain ⟨h1, h2⟩ := List.append_eq_nil.mp hacc
    refine ⟨h1, ?_⟩
    intro x hx
    rcases List.mem_cons.mp hx with hx | hx
    · subst hx; exact h2
    · exact hrest x hx

mutual

theorem compile_expr_ok (e : Expr) (ctx : TypeContext) :
    ∃ c, compile_expr e ctx = .ok c := by
  cases e with
  | Literal lit => exact ⟨_, rfl⟩
  | Field entity field => exact ⟨_, rfl⟩
  | Op op args =>
    obtain ⟨cs, hcs⟩ := compile_expr_list_ok args ctx
    rw [compile_expr, hcs]
    exact ⟨_, rfl⟩
  | Quantifier kind var domain body =>
    obtain ⟨c, hc⟩ := compile_expr_ok body ctx
    rw [compile_expr, hc]
    exact ⟨_, rfl⟩
  | FnCall classification name args => exact ⟨_, rfl⟩
  | Is entity refinement params => exact ⟨_, rfl⟩

theorem compile_expr_list_ok (es : List Expr) (ctx : TypeContext) :
    ∃ cs, compile_expr_list es ctx = .ok cs := by
  cases es with
  | nil => exact ⟨[], rfl⟩
  | cons e rest =>
    obtain ⟨c, hc⟩ := compile_expr_ok e ctx
    obtain ⟨cs, hcs⟩ := compile_expr_list_ok rest ctx
    rw [compile_expr_list, hc, hcs]
    exact ⟨_, rfl⟩

end

theorem compile_refinement_preds_ok :
    ∀ (refs : List (String × Refinement)) (ctx : TypeContext)
      (acc : List (String × CompiledExpr)),
      ∃ ps, compile_refinement_preds refs ctx acc = .ok ps := by
  intro refs
  induction refs with
  | nil => intro ctx acc; exact ⟨acc, rfl⟩
  | cons p rest ih =>
    intro ctx acc
    obtain ⟨c, hc⟩ := compile_expr_ok p.2.predicate ctx
    rw [compile_refinement_preds]
    rw [hc]
    exact ih ctx _

theorem compile_property_preds_ok :
    ∀ (props : List (String × Property)) (ctx : TypeContext)
      (acc : List (String × CompiledExpr)),
      ∃ ps, compile_property_preds props ctx acc = .ok ps := by
  intro props
  induction props with
  | nil => intro ctx acc; exact ⟨acc, rfl⟩
  | cons p rest ih =>
    intro ctx acc
    rw [compile_property_preds]
    rcases hp : p.2.predicate with _ | pred
    · simp only [hp]
      exact ih ctx acc
    · simp only [hp]
      obtain ⟨c, hc⟩ := compile_expr_ok pred ctx
      rw [hc]
      exact ih ctx _

theorem compile_pipeline_no_error : ∀ fuel : Nat,
    (∀ (node : ProtocolNode) (ctx : TypeContext) (protos : List (String × Protocol))
       (graph : NdaGraph) (nm : String),
       collect_refs nm protos node = [] →
       (∀ q pr, (q, pr) ∈ protos → collect_refs q protos pr.root = []) →
       ∀ r, compile_node fuel node ctx protos graph = some r → ∃ v, r = Except.ok v)
    ∧ (∀ (children : List ProtocolNode) (ctx : TypeContext)
       (protos : List (String × Protocol)) (graph : NdaGraph) (fe pe : Option Nat)
       (nm : String),
       collect_refs_list nm protos children = [] →
       (∀ q pr, (q, pr) ∈ protos → collect_refs q protos pr.root = []) →
       ∀ r, compile_seq fuel children ctx protos graph fe pe = some r → ∃ v, r = Except.ok v)
    ∧ (∀ (branches : List AltBranch) (ctx : TypeContext)
       (protos : List (String × Protocol)) (graph : NdaGraph) (join : Nat)
       (acc : List BranchEdge) (nm : String),
       collect_refs_branches nm protos branches = [] →
       (∀ q pr, (q, pr) ∈ protos → collect_refs q protos pr.root = []) →
       ∀ r, compile_alt fuel branches ctx protos graph join acc = some r
         → ∃ v, r = Except.ok v) := by
  intro fuel
  induction fuel with
  | zero =>
    refine ⟨?_, ?_, ?_⟩
    · intro node ctx protos graph nm hn hall r h
      rw [compile_node] at h
      exact Option.noConfusion h
    · intro children ctx protos graph fe pe nm hn hall r h
      cases children with
      | nil =>
        cases fe with
        | none =>
          rw [compile_seq] at h
          exact Option.noConfusion h
        | some fev =>
          cases pe with
          | none =>
            rw [compile_seq] at h
            exact Option.noConfusion h
          | some pev =>
            rw [compile_seq] at h
            injection h with h
            exact ⟨_, h.symm⟩
      | cons c rest =>
        rw [compile_seq.eq_def] at h
        first
          | dsimp only at h
          | skip
        rw [compile_node] at h
        exact Option.noConfusion h
    · intro branches ctx protos graph join acc nm hn hall r h
      cases branches with
      | nil =>
        rw [compile_alt] at h
        injection h with h
        exact ⟨_, h.symm⟩
      | cons b rest =>
        rcases b with ⟨bid, bw, bg, bbody⟩
        rw [compile_alt.eq_def] at h
        first
          | dsimp only at h
          | skip
        rw [compile_node] at h
        exact Option.noConfusion h
  | succ n ihn =>
    obtain ⟨ihnode, ihseq, ihalt⟩ := ihn
    have hnode : ∀ (node : ProtocolNode) (ctx : TypeContext)
        (protos : List (String × Protocol)) (graph : NdaGraph) (nm : String),
        collect_refs nm protos node = [] →
        (∀ q pr, (q, pr) ∈ protos → collect_refs q protos pr.root = []) →
        ∀ r, compile_node (n + 1) node ctx protos graph = some r
          → ∃ v, r = Except.ok v := by
      intro node ctx protos graph nm hn hall r h
      cases node with
      | Call action =>
        rw [compile_node] at h
        injection h with h
        exact ⟨_, h.symm⟩
      | Seq children =>
        rw [compile_node] at h
        by_cases hemp : children.isEmpty = true
        · rw [if_pos hemp] at h
          injection h with h
          exact ⟨_, h.symm⟩
        · rw [if_neg hemp] at h
          simp only [collect_refs] at hn
          exact ihseq children ctx protos graph none none nm hn hall r h
      | Alt branches =>
        rw [compile_node] at h
        simp only [collect_refs] at hn
        split at h
        · exact Option.noConfusion h
        · rename_i e heq
          obtain ⟨v, hv⟩ := ihalt branches ctx protos _ _ [] nm hn hall _ heq
          exact Except.noConfusion hv
        · injection h with h
          exact ⟨_, h.symm⟩
      | Repeat mn mx body =>
        rw [compile_node] at h
        simp only [collect_refs] at hn
        split at h
        · exact Option.noConfusion h
        · rename_i e heq
          obtain ⟨v, hv⟩ := ihnode body ctx protos graph nm hn hall _ heq
          exact Except.noConfusion hv
        · injection h with h
          exact ⟨_, h.symm⟩
      | Ref protocol =>
        rw [compile_node] at h
        simp only [collect_refs] at hn
        rcases hlk : alookup protocol protos with _ | referenced
        · rw [hlk] at hn
          simp at hn
        · rw [hlk] at h
          exact ihnode referenced.root ctx protos graph protocol
            (hall protocol referenced (alookup_mem protocol referenced protos hlk)) hall r h
    have hseq : ∀ (children : List ProtocolNode) (ctx : TypeContext)
        (protos : List (String × Protocol)) (graph : NdaGraph) (fe pe : Option Nat)
        (nm : String),
        collect_refs_list nm protos children = [] →
        (∀ q pr, (q, pr) ∈ protos → collect_refs q protos pr.root = []) →
        ∀ r, compile_seq (n + 1) children ctx protos graph fe pe = some r
          → ∃ v, r = Except.ok v := by
      intro children
      induction children with
      | nil =>
        intro ctx protos graph fe pe nm hn hall r h
        cases fe with
        | none =>
          rw [compile_seq] at h
          exact Option.noConfusion h
        | some fev =>
          cases pe with
          | none =>
            rw [compile_seq] at h
            exact Option.noConfusion h
          | some pev =>
            rw [compile_seq] at h
            injection h with h
            exact ⟨_, h.symm⟩
      | cons c rest ihc =>
        intro ctx protos graph fe pe nm hn hall r h
        simp only [collect_refs_list] at hn
        obtain ⟨hn1, hn2⟩ := List.append_eq_nil.mp hn
        rw [compile_seq.eq_def] at h
        first
          | dsimp only at h
          | skip
        split at h
        · exact Option.noConfusion h
        · rename_i e heq
          obtain ⟨v, hv⟩ := hnode c ctx protos graph nm hn1 hall _ heq
          exact Except.noConfusion hv
        · exact ihc ctx protos _ _ _ nm hn2 hall r h
    have halt : ∀ (branches : List AltBranch) (ctx : TypeContext)
        (protos : List (String × Protocol)) (graph : NdaGraph) (join : Nat)
        (acc : List BranchEdge) (nm : String),
        collect_refs_branches nm protos branches = [] →
        (∀ q pr, (q, pr) ∈ protos → collect_refs q protos pr.root = []) →
        ∀ r, compile_alt (n + 1) branches ctx protos graph join acc = some r
          → ∃ v, r = Except.ok v := by
      intro branches
      induction branches with
      | nil =>
        intro ctx protos graph join acc nm hn hall r h
        rw [compile_alt] at h
        injection h with h
        exact ⟨_, h.symm⟩
      | cons b rest ihb =>
        intro ctx protos graph join acc nm hn hall r h
        rcases b with ⟨bid, bw, bg, bbody⟩
        simp only [collect_refs_branches] at hn
        obtain ⟨hn1, hn2⟩ := List.append_eq_nil.mp hn
        rw [compile_alt.eq_def] at h
        first
          | dsimp only at h
          | skip
        split at h
        · exact Option.noConfusion h
        · rename_i e heq
          obtain ⟨v, hv⟩ := hnode bbody ctx protos graph nm hn1 hall _ heq
          exact Except.noConfusion hv
        · split at h
          · rename_i e heq2
            cases bg with
            | none => exact Except.noConfusion heq2
            | some ge =>
              obtain ⟨cg, hcg⟩ := compile_expr_ok ge ctx
              simp [AltBranch.guard, hcg] at heq2
          · exact ihb ctx protos _ join _ nm hn2 hall r h
    exact ⟨hnode, hseq, halt⟩

theorem compile_protocol_ok (fuel : Nat) (pr : Protocol) (ctx : TypeContext)
    (all : List (String × Protocol)) (nm : String)
    (hn : collect_refs nm all pr.root = [])
    (hall : ∀ q p, (q, p) ∈ all → collect_refs q all p.root = []) :
    ∀ r, compile_protocol fuel pr ctx all = some r → ∃ g, r = Except.ok g := by
  intro r h
  rw [compile_protocol] at h
  split at h
  · exact Option.noConfusion h
  · rename_i e heq
    obtain ⟨v, hv⟩ := (compile_pipeline_no_error fuel).1 pr.root ctx all NdaGraph.new nm
      hn hall _ heq
    exact Except.noConfusion hv
  · injection h with h
    exact ⟨_, h.symm⟩

theorem compile_graphs_ok :
    ∀ (ps : List (String × Protocol)) (fuel : Nat) (ctx : TypeContext)
      (all : List (String × Protocol)) (acc : List (String × NdaGraph)),
      (∀ q p, (q, p) ∈ ps → collect_refs q all p.root = []) →
      (∀ q p, (q, p) ∈ all → collect_refs q all p.root = []) →
      ∀ r, compile_graphs fuel ps ctx all acc = some r → ∃ gs, r = Except.ok gs := by
  intro ps
  induction ps with
  | nil =>
    intro fuel ctx all acc hps hall r h
    rw [compile_graphs] at h
    injection h with h
    exact ⟨_, h.symm⟩
  | cons p rest ih =>
    intro fuel ctx all acc hps hall r h
    rcases p with ⟨name, proto⟩
    rw [compile_graphs] at h
    split at h
    · exact Option.noConfusion h
    · rename_i e heq
      obtain ⟨g, hg⟩ := compile_protocol_ok fuel proto ctx all name
        (hps name proto (List.mem_cons_self _ _)) hall _ heq
      exact Except.noConfusion hg
    · exact ih fuel ctx all _ (fun q pr hm => hps q pr (List.mem_cons_of_mem _ hm)) hall r h

theorem validate_refs_empty (ir : BeaconIR) (hv : validate_ir ir = []) :
    ∀ q pr, (q, pr) ∈ ir.protocols → collect_refs q ir.protocols pr.root = [] := by
  have h1 := List.append_eq_nil.mp hv
  have h2 := List.append_eq_nil.mp h1.1
  have h3 := List.append_eq_nil.mp h2.1
  have h4 : validate_protocol_refs ir = [] := h2.2
  rw [validate_protocol_refs] at h4
  obtain ⟨-, h⟩ := foldl_append_eq_nil
    (fun p => collect_refs p.1 ir.protocols p.2.root) ir.protocols [] h4
  intro q pr hm
  exact h (q, pr) hm

/-- C3: for every IR (and enough fuel for the protocol-reference recursion to
terminate), compile succeeds iff validate returns no errors — validation
failure forces a `Validation` error, and after a clean validation neither
predicate lowering (`compile_expr` is total) nor protocol lowering (every
reachable protocol reference resolves) can fail. -/
theorem compile_ok_iff_validate (ir : BeaconIR) (fuel : Nat)
    (res : Except CompileError CompiledIR) (h : compile ir fuel = some res) :
    (∃ c, res = Except.ok c) ↔ validate_ir ir = [] := by
  constructor
  · rintro ⟨c, hc⟩
    subst hc
    by_contra hne
    rw [compile] at h
    rcases hvv : validate_ir ir with _ | ⟨e, es⟩
    · exact hne hvv
    · rw [hvv] at h
      simp at h
  · intro hv
    rw [compile] at h
    rw [hv] at h
    simp only [List.isEmpty_nil, not_true_eq_false, if_false] at h
    obtain ⟨ps1, hps1⟩ := compile_refinement_preds_ok ir.refinements
      (TypeContext.from_ir ir) []
    simp only [hps1] at h
    obtain ⟨ps2, hps2⟩ := compile_property_preds_ok ir.properties
      (TypeContext.from_ir ir) ps1
    simp only [hps2] at h
    have hall := validate_refs_empty ir hv
    rcases hcg : compile_graphs fuel ir.protocols (TypeContext.from_ir ir)
        ir.protocols [] with _ | rg
    · rw [hcg] at h
      exact Option.noConfusion h
    · obtain ⟨gs, hgs⟩ := compile_graphs_ok ir.protocols fuel (TypeContext.from_ir ir)
        ir.protocols [] hall hall rg hcg
      subst hgs
      rw [hcg] at h
      injection h with h
      exact ⟨_, h.symm⟩

/-- Witness for C3 at a concrete input: the empty IR validates with no
errors and compiles (with fuel 1). -/
theorem compile_ok_iff_validate_witness :
    (∃ c, (Except.ok { graphs := [], predicates := [],
                       type_context := TypeContext.from_ir ir_empty }
             : Except CompileError CompiledIR)
      = Except.ok c)
    ↔ validate_ir ir_empty = [] :=
  compile_ok_iff_validate ir_empty 1 _ rfl

end Beacon
